import Mathlib

/-!
# Verification of the BDD-to-k6 compiler pipeline

A shallow embedding, in Lean 4, of the JavaScript BDD pipeline of this
repository: the scenario-outline resolution pass of `bdd/parser.js`, the step
registry and matcher of `bdd/steps/index.js`, the script generator of
`bdd/generator.js`, and the execution loop of `bdd/runner.js`.

Conventions of the embedding:
* JavaScript strings are Lean `String`s; where proofs need structural
  induction the work happens on `String.data : List Char`.
* JavaScript objects used as string-keyed maps are insertion-ordered
  association lists (`List (String × α)`); `objSet` mirrors `obj[k] = v` and
  `Map.set` (overwrite keeps the original position), `jsLookup` mirrors
  `obj[k]`, `addSet` mirrors `Set.add`.
* `parseInt` is modelled exactly on decimal/hex prefixes with ASCII
  whitespace; `x || fallback` on numbers and strings is modelled by
  `jsToIntOr1` / `jsOrStr` (`0`, `NaN`, `""`, `undefined` are falsy).
* `Math.floor(x * 0.2)`, `Math.floor(x * 0.15)` and `Math.floor(x * 0.1)`
  are modelled as `x * 20 / 100`, `x * 15 / 100`, `x * 10 / 100`: for every
  input magnitude the pipeline can meet (far below 2^50) the double product
  rounds to a value with the same floor, and `Int./` (Euclidean) agrees with
  `Math.floor` for the positive divisors used here.
* Literal `{` and `}` inside embedded JavaScript text are written with the
  string escapes `\x7b` and `\x7d`; the characters are the braces themselves.
* `new Date().toISOString()` is an explicit `timestamp` argument.
-/

/-! ## JavaScript-object primitives -/

/-- `obj[k] = v` on an insertion-ordered map: overwrite in place, else append. -/
def objSet {α : Type} (l : List (String × α)) (k : String) (v : α) :
    List (String × α) :=
  match l with
  | [] => [(k, v)]
  | (k0, v0) :: rest =>
    if k0 = k then (k, v) :: rest else (k0, v0) :: objSet rest k v

/-- `obj[k]` on an insertion-ordered map. -/
def jsLookup {α : Type} (l : List (String × α)) (k : String) : Option α :=
  match l with
  | [] => none
  | (k0, v) :: rest => if k0 = k then some v else jsLookup rest k

/-- `Set.add`: append if not already present (iteration is insertion order). -/
def addSet (l : List String) (x : String) : List String :=
  if x ∈ l then l else l ++ [x]

/-- `if (!obj[m]) obj[m] = []; obj[m].push(r)` from the threshold collector. -/
def pushRule (l : List (String × List String)) (m r : String) :
    List (String × List String) :=
  match l with
  | [] => [(m, [r])]
  | (k, rs) :: rest =>
    if k = m then (k, rs ++ [r]) :: rest else (k, rs) :: pushRule rest m r

/-! ## JavaScript string and number primitives -/

/-- ASCII whitespace as `parseInt` and `trim` skip it. -/
def isJsSpace (c : Char) : Bool :=
  c == ' ' || c == '\t' || c == '\n' || c == '\x0d' || c == '\x0b' || c == '\x0c'

/-- Decimal value of a digit run. -/
def digitsVal (l : List Char) : Nat :=
  l.foldl (fun a c => a * 10 + (c.toNat - 48)) 0

def isHexDigit (c : Char) : Bool :=
  c.isDigit || ('a' ≤ c && c ≤ 'f') || ('A' ≤ c && c ≤ 'F')

def hexDigitVal (c : Char) : Nat :=
  if c.isDigit then c.toNat - 48
  else if 'a' ≤ c && c ≤ 'f' then c.toNat - 87
  else c.toNat - 55

def hexVal (l : List Char) : Nat :=
  l.foldl (fun a c => a * 16 + hexDigitVal c) 0

/-- Magnitude part of `parseInt` (radix 10, or 16 after `0x`/`0X`);
`none` is `NaN`. Trailing garbage after the digit run is ignored, as in JS. -/
def jsParseIntAbs (l : List Char) : Option Nat :=
  match l with
  | '0' :: 'x' :: rest =>
    let hs := rest.takeWhile isHexDigit
    if hs = [] then none else some (hexVal hs)
  | '0' :: 'X' :: rest =>
    let hs := rest.takeWhile isHexDigit
    if hs = [] then none else some (hexVal hs)
  | _ =>
    let ds := l.takeWhile Char.isDigit
    if ds = [] then none else some (digitsVal ds)

/-- `parseInt(s)`: skip whitespace, optional sign, digit prefix; `none` = NaN. -/
def jsParseInt (s : String) : Option Int :=
  match s.data.dropWhile isJsSpace with
  | '-' :: rest => (jsParseIntAbs rest).map (fun n => -(n : Int))
  | '+' :: rest => (jsParseIntAbs rest).map (fun n => (n : Int))
  | l => (jsParseIntAbs l).map (fun n => (n : Int))

/-- `parseInt(value) || 1` on an optional field: `undefined`, NaN and `0`
are falsy, so all of them yield the fallback `1`. -/
def jsToIntOr1 (o : Option String) : Int :=
  match o with
  | none => 1
  | some s =>
    match jsParseInt s with
    | none => 1
    | some n => if n = 0 then 1 else n

/-- `value || fallback` on an optional string: `undefined` and `""` are falsy. -/
def jsOrStr (o : Option String) (d : String) : String :=
  match o with
  | none => d
  | some s => if s = "" then d else s

/-- `s.trim()` (restricted to ASCII whitespace). -/
def jsTrim (s : String) : String :=
  String.mk (((s.data.dropWhile isJsSpace).reverse.dropWhile isJsSpace).reverse)

/-! ## Global regex replacement (`text.replace(new RegExp("<key>", "g"), val)`)

The parser builds its placeholder regex from the raw column name, so for the
alphanumeric column names the construction is a literal, left-to-right,
non-overlapping global replacement; that is what `substAll` implements on
`List Char`. -/

/-- Strip `ps` off the front of `l` if it is literally there. -/
def dropPre : List Char → List Char → Option (List Char)
  | [], l => some l
  | _ :: _, [] => none
  | p :: ps, c :: cs => if p = c then dropPre ps cs else none

theorem dropPre_length :
    ∀ (ps l r : List Char), dropPre ps l = some r → l.length = ps.length + r.length := by
  intro ps
  induction ps with
  | nil => intro l r h; simp [dropPre] at h; simp [h]
  | cons p ps ih =>
    intro l r h
    cases l with
    | nil => simp [dropPre] at h
    | cons c cs =>
      simp only [dropPre] at h
      split at h
      · have := ih cs r h
        simp [this]; omega
      · exact absurd h (by simp)

/-- Replace every non-overlapping occurrence of `k0 :: kr` by `rep`,
scanning left to right and never rescanning inserted text. This is the
meaning of `String.prototype.replace` with a global `RegExp` built from a
key, *provided* the key contains no regex metacharacters (so the
constructed pattern denotes the literal key text) and the replacement
contains no `$` (so it is inserted verbatim, with no `$`-pattern
expansion); the C3 theorem assumes exactly that of the columns it covers,
and for other keys or values this definition is not a model of the
`replace` call. -/
def substAll (k0 : Char) (kr rep : List Char) : List Char → List Char
  | [] => []
  | c :: cs =>
    match h : dropPre (k0 :: kr) (c :: cs) with
    | some r => rep ++ substAll k0 kr rep r
    | none => c :: substAll k0 kr rep cs
termination_by l => l.length
decreasing_by
  · have hl := dropPre_length (k0 :: kr) (c :: cs) r h
    simp at hl
    simp
    omega
  · simp

/-- `pat` occurs in `l` as a contiguous substring. -/
def occurs (pat l : List Char) : Prop :=
  ∃ s t, l = s ++ pat ++ t

/-- Substring occurrence at the `String` level. -/
def occursStr (pat s : String) : Prop :=
  occurs pat.data s.data

/-! ## Data model of the parsed feature (`bdd/parser.js`) -/

/-- A Gherkin `Examples` AST node as the parser reads it. -/
structure GExamples where
  name : String
  tags : List String
  tableHeader : Option (List String)
  tableBody : List (List String)
deriving DecidableEq

/-- A Gherkin step AST node (`dataTable` already flattened to a 2-D array,
as `parseDataTable` produces). -/
structure GStep where
  keyword : String
  text : String
  dataTable : Option (List (List String))
  docString : Option String
deriving DecidableEq

/-- A Gherkin scenario AST node (with its `examples`, possibly empty). -/
structure GScenario where
  name : String
  tags : List String
  steps : List GStep
  examples : List GExamples
deriving DecidableEq

/-- A step of a resolved scenario, as the generator consumes it. -/
structure RStep where
  keyword : String
  text : String
  dataTable : Option (List (List String))
  docString : Option String
deriving DecidableEq

/-- A `ResolvedScenario` of the normalized parser output. -/
structure Resolved where
  name : String
  tags : List String
  rtype : String
  examplesName : Option String
  parameters : List (String × String)
  steps : List RStep
deriving DecidableEq

/-- The parsed feature data the generator reads (`feature.name` is all
`generateSingleScript` uses). -/
structure GFeature where
  name : String
deriving DecidableEq

/-! ## Scenario-outline resolution (`resolveScenarioOutline`) -/

/-- `headers.forEach((header, i) => params[header] = values[i] || '')`. -/
def buildParamsGo (headers vals : List String) (acc : List (String × String)) :
    List (String × String) :=
  match headers with
  | [] => acc
  | h :: hs => buildParamsGo hs vals.tail (objSet acc h (vals.headD ""))

def buildParams (headers vals : List String) : List (String × String) :=
  buildParamsGo headers vals []

/-- The substitution loop over `Object.entries(params)` (insertion order):
each column name `key` has every `<key>` occurrence replaced by its value.
Built on `substAll`, so it models the per-column
`replace(new RegExp(..., 'g'), value)` only for metacharacter-free column
names and `$`-free row values (the scope of the C3 theorem's hypotheses). -/
def resolveStepText (params : List (String × String)) (text : String) : String :=
  params.foldl
    (fun acc kv => String.mk (substAll '<' (kv.1.data ++ ['>']) kv.2.data acc.data))
    text

def resolveGStep (params : List (String × String)) (st : GStep) : RStep :=
  ⟨jsTrim st.keyword, resolveStepText params st.text, st.dataTable, st.docString⟩

/-- The three characters U+00E2 U+20AC U+201D that `parser.js` line 146
literally holds where an em dash was meant (mojibake in the source file). -/
def mojibakeDash : String := "â€”"

/-- `` `${scenario.name} [${examplesName} â€” Row ${rowIndex + 1}]` `` -/
def resolveRowName (sname exName : String) (rowIndex : Nat) : String :=
  sname ++ " [" ++ exName ++ " " ++ mojibakeDash ++ " Row " ++ toString (rowIndex + 1) ++ "]"

/-- One resolved scenario from row `rowIndex` (0-based) of an Examples table. -/
def resolveRow (s : GScenario) (headers : List String) (exName : String)
    (exTags : List String) (rowIndex : Nat) (row : List String) : Resolved :=
  let params := buildParams headers row
  ⟨resolveRowName s.name exName rowIndex,
   s.tags ++ exTags,
   "scenario_outline",
   some exName,
   params,
   s.steps.map (resolveGStep params)⟩

/-- The inner `for (rowIndex …)` loop over a table body. -/
def expandRows (s : GScenario) (headers : List String) (exName : String)
    (exTags : List String) : Nat → List (List String) → List Resolved
  | _, [] => []
  | i, row :: rest =>
    resolveRow s headers exName exTags i row :: expandRows s headers exName exTags (i + 1) rest

/-- `examples.name || 'Default'`. -/
def examplesDisplayName (ex : GExamples) : String :=
  if ex.name = "" then "Default" else ex.name

/-- The per-table expansion, including the guard that skips a table with no
header or an empty body. -/
def expandExamples (s : GScenario) (ex : GExamples) : List Resolved :=
  match ex.tableHeader with
  | none => []
  | some headers =>
    if ex.tableBody = [] then []
    else expandRows s headers (examplesDisplayName ex) ex.tags 0 ex.tableBody

/-- `resolveScenarioOutline`: one concrete scenario per row of each Examples
table, in table order then row order. -/
def resolveScenarioOutline (s : GScenario) : List Resolved :=
  s.examples.flatMap (expandExamples s)

/-! ## Case-insensitive matching (`/.../i`)

`foldChar` is the case canonicalization the embedding uses for the `i` flag
and for `toLowerCase()`: the ASCII letters plus the accented Latin letters
that occur in this repository's patterns and names. (JavaScript canonicalizes
over all of Unicode; the restriction is harmless for the registry's
patterns, whose literals use only these letters.) -/

def foldChar (c : Char) : Char :=
  match c with
  | 'A' => 'a' | 'B' => 'b' | 'C' => 'c' | 'D' => 'd' | 'E' => 'e' | 'F' => 'f'
  | 'G' => 'g' | 'H' => 'h' | 'I' => 'i' | 'J' => 'j' | 'K' => 'k' | 'L' => 'l'
  | 'M' => 'm' | 'N' => 'n' | 'O' => 'o' | 'P' => 'p' | 'Q' => 'q' | 'R' => 'r'
  | 'S' => 's' | 'T' => 't' | 'U' => 'u' | 'V' => 'v' | 'W' => 'w' | 'X' => 'x'
  | 'Y' => 'y' | 'Z' => 'z'
  | 'Á' => 'á' | 'É' => 'é' | 'Í' => 'í' | 'Ó' => 'ó' | 'Ú' => 'ú'
  | 'Ñ' => 'ñ' | 'Ü' => 'ü'
  | d => d

/-- One token of a registry pattern: a literal run, `(\d+)`, or `([^"]+)`.
These three are the only constructs the registry's 20 patterns use. -/
inductive PatTok where
  | lit (s : String)
  | digits
  | nonQuote
deriving DecidableEq

/-- Strip a pattern literal off the text, comparing case-insensitively. -/
def stripCI : List Char → List Char → Option (List Char)
  | [], l => some l
  | _ :: _, [] => none
  | p :: ps, c :: cs => if foldChar p = foldChar c then stripCI ps cs else none

/-- Maximal run satisfying `p`, with the remainder. -/
def takeRun (p : Char → Bool) : List Char → List Char × List Char
  | [] => ([], [])
  | c :: cs =>
    if p c then
      let r := takeRun p cs
      (c :: r.1, r.2)
    else ([], c :: cs)

/-- Match an anchored token sequence against the whole text, producing the
captured groups. Greedy maximal-munch agrees with the backtracking regex
engine for these patterns: a `(\d+)` is always followed by a non-digit
literal and a `([^"]+)` by a `"` literal, so only the maximal run can
succeed. -/
def matchToks : List PatTok → List Char → Option (List String)
  | [], [] => some []
  | [], _ :: _ => none
  | PatTok.lit s :: ps, cs =>
    match stripCI s.data cs with
    | some rest => matchToks ps rest
    | none => none
  | PatTok.digits :: ps, cs =>
    let r := takeRun Char.isDigit cs
    if r.1 = [] then none
    else (matchToks ps r.2).map (fun caps => String.mk r.1 :: caps)
  | PatTok.nonQuote :: ps, cs =>
    let r := takeRun (fun c => c != '"') cs
    if r.1 = [] then none
    else (matchToks ps r.2).map (fun caps => String.mk r.1 :: caps)

/-- `text.match(pattern)` for an anchored pattern: the JS match array, with
`match[0]` the whole matched text and `match[k]` the `k`-th capture. -/
def patMatch (p : List PatTok) (text : String) : Option (List String) :=
  (matchToks p text.data).map (fun caps => text :: caps)

/-! ## Registry entry shape -/

/-- One `metrics` entry of a step definition. -/
structure MetricDecl where
  name : String
  mtype : String
  k6name : String
  isTime : Bool
deriving DecidableEq

/-- One entry of `STEP_DEFINITIONS`. -/
structure StepDef where
  pattern : List PatTok
  code : List String → String
  setup : Option String
  imports : List String
  metrics : List MetricDecl
  threshold : Option (List String → (String × String))

/-- Decimal rendering of `n / 100` as JavaScript number-to-string prints it
(used in `rate<${parseInt(match[1]) / 100}`); exact for every count below
the double-precision integer range. -/
def ratioStrNat (n : Nat) : String :=
  if n % 100 = 0 then toString (n / 100)
  else if n % 10 = 0 then toString (n / 100) ++ "." ++ toString (n % 100 / 10)
  else toString (n / 100) ++ "." ++ (if n % 100 < 10 then "0" else "") ++ toString (n % 100)

def ratioStr (i : Int) : String :=
  if i < 0 then "-" ++ ratioStrNat i.natAbs else ratioStrNat i.natAbs

/-- `${parseInt(match[1]) / 100}` on a capture string. -/
def ratioOfCapture (s : String) : String :=
  match jsParseInt s with
  | none => "NaN"
  | some i => ratioStr i
/-! ## The step-definition registry (`bdd/steps/index.js`)

Each `code`/`setup` string below is the exact text the JavaScript template
literal produces (braces written `\x7b`/`\x7d`); `m` is the regex match
array, `m.getD k ""` standing for `match[k]`. -/

def stepDef01Code (_m : List String) : String :=
  "\n    // Verificación: el sistema responde\n    console.log('✅ Sistema disponible — iniciando test');"

def stepDef01 : StepDef :=
  ⟨[PatTok.lit "el sistema está disponible"],
   stepDef01Code, none, [], [],
   none⟩

def stepDef02Code (_m : List String) : String :=
  "\n    // Autenticación via setup()\n    const \x7b token \x7d = data;\n    if (!token) \x7b console.error('❌ No token available'); return; \x7d"

def stepDef02Setup : String :=
  "\n    const token = login();\n    if (!token) throw new Error('Authentication failed during setup.');\n    return \x7b token \x7d;"

def stepDef02 : StepDef :=
  ⟨[PatTok.lit "el usuario está autenticado"],
   stepDef02Code, some stepDef02Setup, ["login"], [],
   none⟩

def stepDef03Code (_m : List String) : String :=
  "\n    // Verificar que hay productos disponibles\n    const productCheck = getProducts(data.token, \x7b page: 1, pageSize: 5 \x7d);\n    if (!productCheck || !productCheck.data || productCheck.data.total === 0) \x7b\n        console.warn('⚠️ No hay productos disponibles');\n    \x7d"

def stepDef03 : StepDef :=
  ⟨[PatTok.lit "el usuario tiene productos disponibles"],
   stepDef03Code, none, ["getProducts"], [],
   none⟩

def stepDef04Code (_m : List String) : String :=
  "\n    // SKU pool cargado en setup()\n    const \x7b token, skuPool \x7d = data;\n    if (!skuPool || skuPool.length === 0) \x7b\n        console.warn('⚠️ No SKUs con stock disponible');\n        return;\n    \x7d"

def stepDef04Setup : String :=
  "\n    const token = login();\n    if (!token) throw new Error('Authentication failed.');\n    const skuPool = [];\n    for (let page = 1; page <= 3; page++) \x7b\n        const result = getProducts(token, \x7b page, pageSize: 50 \x7d);\n        if (result && result.data && result.data.items) \x7b\n            result.data.items.forEach((p) => \x7b\n                if (p.stock > 0) \x7b\n                    skuPool.push(\x7b sku: p.sku, stock: p.stock, name: p.name \x7d);\n                \x7d\n            \x7d);\n        \x7d\n    \x7d\n    console.log(`🛒 Setup: $\x7bskuPool.length\x7d SKUs con stock disponible`);\n    return \x7b token, skuPool \x7d;"

def stepDef04 : StepDef :=
  ⟨[PatTok.lit "existe un pool de SKUs con stock"],
   stepDef04Code, some stepDef04Setup, ["login", "getProducts"], [],
   none⟩

def stepDef05Code (m : List String) : String :=
  "\n    // Login action — VUs: " ++ (m.getD 1 "") ++ ", Duration: " ++ (m.getD 2 "") ++ "\n    const loginStart = Date.now();\n    const loginUrl = `$\x7bBASE_URL\x7d/api/auth`;\n    const loginPayload = JSON.stringify(\x7b\n        username: __ENV.USERNAME || 'ghauyon',\n        password: __ENV.PASSWORD || 'user4Test',\n    \x7d);\n    const loginRes = http.post(loginUrl, loginPayload, \x7b\n        headers: \x7b 'Content-Type': 'application/json' \x7d,\n        tags: \x7b name: 'AUTH_Login' \x7d,\n    \x7d);\n    loginDuration.add(Date.now() - loginStart);\n\n    const loginOk = check(loginRes, \x7b\n        'login: status 200': (r) => r.status === 200,\n        'login: tiene token': (r) => \x7b\n            try \x7b return JSON.parse(r.body).data.token !== undefined; \x7d\n            catch (e) \x7b return false; \x7d\n        \x7d,\n    \x7d);\n    if (!loginOk) \x7b\n        authFailures.add(1);\n        return;\n    \x7d\n    authFailures.add(0);\n    const token = JSON.parse(loginRes.body).data.token;\n    sleep(1);\n\n    // Logout\n    const logoutStart = Date.now();\n    http.del(loginUrl, null, \x7b\n        headers: \x7b 'Authorization': `Bearer $\x7btoken\x7d`, 'Content-Type': 'application/json' \x7d,\n        tags: \x7b name: 'AUTH_Logout' \x7d,\n    \x7d);\n    logoutDuration.add(Date.now() - logoutStart);\n    sleep(2);"

def stepDef05 : StepDef :=
  ⟨[PatTok.digits, PatTok.lit " usuarios realizan login durante \"", PatTok.nonQuote, PatTok.lit "\""],
   stepDef05Code, none, [], [⟨"loginDuration", "Trend", "login_duration", true⟩, ⟨"logoutDuration", "Trend", "logout_duration", true⟩, ⟨"authFailures", "Rate", "auth_failure_rate", false⟩],
   none⟩

def stepDef06Code (m : List String) : String :=
  "\n    // Browse products — page: " ++ (m.getD 1 "") ++ ", pageSize: " ++ (m.getD 2 "") ++ "\n    const browseStart = Date.now();\n    const browseResult = getProducts(data.token, \x7b page: " ++ (m.getD 1 "") ++ ", pageSize: " ++ (m.getD 2 "") ++ " \x7d);\n    productListDuration.add(Date.now() - browseStart);\n    if (browseResult && browseResult.data) \x7b\n        console.log(`📦 Productos: $\x7bbrowseResult.data.total\x7d total`);\n    \x7d\n    sleep(randomThinkTime(1, 2));"

def stepDef06 : StepDef :=
  ⟨[PatTok.lit "el usuario navega productos en la página ", PatTok.digits, PatTok.lit " con ", PatTok.digits, PatTok.lit " resultados"],
   stepDef06Code, none, ["getProducts", "randomThinkTime"], [⟨"productListDuration", "Trend", "product_list_duration", true⟩],
   none⟩

def stepDef07Code (m : List String) : String :=
  "\n    // Search products: \"" ++ (m.getD 1 "") ++ "\"\n    const searchStart = Date.now();\n    const searchResult = getProducts(data.token, \x7b search: '" ++ (m.getD 1 "") ++ "', page: 1, pageSize: 10 \x7d);\n    productSearchDuration.add(Date.now() - searchStart);\n    if (searchResult && searchResult.data) \x7b\n        console.log(`🔍 Búsqueda \"" ++ (m.getD 1 "") ++ "\": $\x7bsearchResult.data.total\x7d resultados`);\n    \x7d\n    sleep(randomThinkTime(0.5, 1));"

def stepDef07 : StepDef :=
  ⟨[PatTok.lit "el usuario busca \"", PatTok.nonQuote, PatTok.lit "\""],
   stepDef07Code, none, ["getProducts", "randomThinkTime"], [⟨"productSearchDuration", "Trend", "product_search_duration", true⟩],
   none⟩

def stepDef08Code (m : List String) : String :=
  "\n    // Filter by category: \"" ++ (m.getD 1 "") ++ "\"\n    const filterStart = Date.now();\n    const filterResult = getProducts(data.token, \x7b category: '" ++ (m.getD 1 "") ++ "', page: 1, pageSize: 10 \x7d);\n    categoryFilterDuration.add(Date.now() - filterStart);\n    if (filterResult && filterResult.data) \x7b\n        console.log(`🏷️ Categoría \"" ++ (m.getD 1 "") ++ "\": $\x7bfilterResult.data.total\x7d resultados`);\n    \x7d\n    sleep(randomThinkTime(0.5, 1));"

def stepDef08 : StepDef :=
  ⟨[PatTok.lit "el usuario filtra por categoría \"", PatTok.nonQuote, PatTok.lit "\""],
   stepDef08Code, none, ["getProducts", "randomThinkTime"], [⟨"categoryFilterDuration", "Trend", "category_filter_duration", true⟩],
   none⟩

def stepDef09Code (_m : List String) : String :=
  "\n    // List users\n    const usersStart = Date.now();\n    const usersResult = getUsers(data.token, \x7b page: 1, pageSize: 10 \x7d);\n    userListDuration.add(Date.now() - usersStart);\n    if (usersResult && usersResult.data) \x7b\n        console.log(`👥 Usuarios: $\x7busersResult.data.total\x7d total`);\n    \x7d\n    sleep(1);"

def stepDef09 : StepDef :=
  ⟨[PatTok.lit "el usuario lista los usuarios del sistema"],
   stepDef09Code, none, ["getUsers"], [⟨"userListDuration", "Trend", "user_list_duration", true⟩],
   none⟩

def stepDef10Code (m : List String) : String :=
  "\n    // Checkout with " ++ (m.getD 1 "") ++ " product(s)\n    const \x7b token, skuPool \x7d = data;\n    const e2eStart = Date.now();\n\n    // Browse for products\n    const browseStart = Date.now();\n    const productsData = getProducts(token, \x7b page: randomInt(1, 5), pageSize: 10 \x7d);\n    productSearchForCheckout.add(Date.now() - browseStart);\n    sleep(randomThinkTime(1, 2));\n\n    // Select product\n    let selectedSku;\n    if (productsData && productsData.data && productsData.data.items) \x7b\n        const available = productsData.data.items.filter(p => p.stock > 0);\n        if (available.length > 0) selectedSku = randomItem(available).sku;\n    \x7d\n    if (!selectedSku && skuPool && skuPool.length > 0) \x7b\n        selectedSku = randomItem(skuPool).sku;\n    \x7d\n    if (!selectedSku) \x7b\n        console.warn('⚠️ No SKU disponible para checkout');\n        checkoutSuccessRate.add(0);\n        return;\n    \x7d\n    sleep(randomThinkTime(0.5, 1));\n\n    // Place order\n    const quantity = " ++ (m.getD 1 "") ++ ";\n    const checkoutStart = Date.now();\n    const orderRes = createOrder(token, [\x7b sku: selectedSku, quantity \x7d],\n        `bdd-test-$\x7bDate.now()\x7d@loadtest.com`);\n    checkoutDuration.add(Date.now() - checkoutStart);\n\n    if (orderRes.status === 200) \x7b\n        checkoutSuccessRate.add(1);\n        totalOrdersCreated.add(1);\n        // Verify order\n        sleep(randomThinkTime(0.5, 1));\n        const verifyStart = Date.now();\n        getOrders(token, \x7b page: 1, pageSize: 5 \x7d);\n        orderVerifyDuration.add(Date.now() - verifyStart);\n    \x7d else if (orderRes.status === 409) \x7b\n        stockConflicts.add(1);\n        checkoutSuccessRate.add(0);\n    \x7d else \x7b\n        checkoutSuccessRate.add(0);\n    \x7d\n    e2eCheckoutDuration.add(Date.now() - e2eStart);\n    sleep(randomThinkTime(1, 3));"

def stepDef10 : StepDef :=
  ⟨[PatTok.lit "el usuario realiza checkout con ", PatTok.digits, PatTok.lit " productos"],
   stepDef10Code, none, ["getProducts", "createOrder", "getOrders", "randomItem", "randomInt", "randomThinkTime"], [⟨"checkoutDuration", "Trend", "checkout_duration", true⟩, ⟨"productSearchForCheckout", "Trend", "product_search_for_checkout", true⟩, ⟨"orderVerifyDuration", "Trend", "order_verify_duration", true⟩, ⟨"checkoutSuccessRate", "Rate", "checkout_success_rate", false⟩, ⟨"stockConflicts", "Counter", "stock_conflicts_409", false⟩, ⟨"totalOrdersCreated", "Counter", "total_orders_created", false⟩, ⟨"e2eCheckoutDuration", "Trend", "e2e_checkout_duration", true⟩],
   none⟩

def stepDef11Code (_m : List String) : String :=
  "\n    // List orders\n    const ordersStart = Date.now();\n    const ordersResult = getOrders(data.token, \x7b page: 1, pageSize: 10 \x7d);\n    orderListDuration.add(Date.now() - ordersStart);\n    if (ordersResult && ordersResult.data) \x7b\n        console.log(`📋 Órdenes: $\x7bordersResult.data.total\x7d total`);\n    \x7d\n    sleep(1);"

def stepDef11 : StepDef :=
  ⟨[PatTok.lit "el usuario lista las órdenes"],
   stepDef11Code, none, ["getOrders"], [⟨"orderListDuration", "Trend", "order_list_duration", true⟩],
   none⟩

def stepDef12Code (_m : List String) : String :=
  "\n    // Logout\n    logout(data.token);\n    sleep(1);"

def stepDef12 : StepDef :=
  ⟨[PatTok.lit "el usuario realiza logout"],
   stepDef12Code, none, ["logout"], [],
   none⟩

def stepDef13Code (m : List String) : String :=
  "\n    // Threshold assertion: login p95 < " ++ (m.getD 1 "") ++ "ms (enforced via k6 thresholds)"

def stepDef13 : StepDef :=
  ⟨[PatTok.lit "el percentil 95 del login debe ser menor a ", PatTok.digits, PatTok.lit "ms"],
   stepDef13Code, none, [], [],
   some (fun m => ("login_duration", "p(95)<" ++ m.getD 1 ""))⟩

def stepDef14Code (m : List String) : String :=
  "\n    // Threshold assertion: failure rate < " ++ (m.getD 1 "") ++ "% (enforced via k6 thresholds)"

def stepDef14 : StepDef :=
  ⟨[PatTok.lit "la tasa de fallas debe ser menor a ", PatTok.digits, PatTok.lit "%"],
   stepDef14Code, none, [], [],
   some (fun m => ("http_req_failed", "rate<" ++ ratioOfCapture (m.getD 1 "")))⟩

def stepDef15Code (m : List String) : String :=
  "\n    // Threshold assertion: products p95 < " ++ (m.getD 1 "") ++ "ms"

def stepDef15 : StepDef :=
  ⟨[PatTok.lit "el percentil 95 de productos debe ser menor a ", PatTok.digits, PatTok.lit "ms"],
   stepDef15Code, none, [], [],
   some (fun m => ("product_list_duration", "p(95)<" ++ m.getD 1 ""))⟩

def stepDef16Code (m : List String) : String :=
  "\n    // Threshold assertion: checkout p95 < " ++ (m.getD 1 "") ++ "ms"

def stepDef16 : StepDef :=
  ⟨[PatTok.lit "el percentil 95 del checkout debe ser menor a ", PatTok.digits, PatTok.lit "ms"],
   stepDef16Code, none, [], [],
   some (fun m => ("checkout_duration", "p(95)<" ++ m.getD 1 ""))⟩

def stepDef17Code (m : List String) : String :=
  "\n    // Threshold assertion: checkout success rate > " ++ (m.getD 1 "") ++ "%"

def stepDef17 : StepDef :=
  ⟨[PatTok.lit "la tasa de éxito del checkout debe ser mayor a ", PatTok.digits, PatTok.lit "%"],
   stepDef17Code, none, [], [],
   some (fun m => ("checkout_success_rate", "rate>" ++ ratioOfCapture (m.getD 1 "")))⟩

def stepDef18Code (m : List String) : String :=
  "\n    // Threshold assertion: search p95 < " ++ (m.getD 1 "") ++ "ms"

def stepDef18 : StepDef :=
  ⟨[PatTok.lit "el percentil 95 de búsqueda debe ser menor a ", PatTok.digits, PatTok.lit "ms"],
   stepDef18Code, none, [], [],
   some (fun m => ("product_search_duration", "p(95)<" ++ m.getD 1 ""))⟩

def stepDef19Code (_m : List String) : String :=
  "\n    // Assertion: all endpoints responded correctly (enforced via checks)"

def stepDef19 : StepDef :=
  ⟨[PatTok.lit "todos los endpoints deben responder correctamente"],
   stepDef19Code, none, [], [],
   some (fun _m => ("http_req_failed", "rate<0.10"))⟩

def stepDef20Code (m : List String) : String :=
  "\n    // Threshold assertion: overall response time p95 < " ++ (m.getD 1 "") ++ "ms"

def stepDef20 : StepDef :=
  ⟨[PatTok.lit "el tiempo de respuesta general debe ser menor a ", PatTok.digits, PatTok.lit "ms"],
   stepDef20Code, none, [], [],
   some (fun m => ("http_req_duration", "p(95)<" ++ m.getD 1 ""))⟩

/-- `STEP_DEFINITIONS`: the ordered registry. -/
def STEP_DEFINITIONS : List StepDef :=
  [stepDef01, stepDef02, stepDef03, stepDef04, stepDef05, stepDef06, stepDef07, stepDef08, stepDef09, stepDef10, stepDef11, stepDef12, stepDef13, stepDef14, stepDef15, stepDef16, stepDef17, stepDef18, stepDef19, stepDef20]

/-- `matchStep`: iterate the registry in declaration order, return the first
definition whose pattern matches, with the match array; `null` if none. -/
def findFirstMatch (defs : List StepDef) (text : String) :
    Option (StepDef × List String) :=
  match defs with
  | [] => none
  | d :: rest =>
    match patMatch d.pattern text with
    | some m => some (d, m)
    | none => findFirstMatch rest text

def matchStep (text : String) : Option (StepDef × List String) :=
  findFirstMatch STEP_DEFINITIONS text

/-! ## Generator accumulation (`generateSingleScript`, first loop) -/

/-- One entry of `codeBlocks`. -/
structure Block where
  keyword : String
  stepText : String
  code : String
deriving DecidableEq

/-- The five accumulators of `generateSingleScript`. -/
structure GenAccum where
  imports : List String
  metrics : List (String × MetricDecl)
  thresholds : List (String × List String)
  codeBlocks : List Block
  setupCode : Option String

def emptyAccum : GenAccum := ⟨[], [], [], [], none⟩

/-- `` `    // [${step.keyword}] ${step.text} — Step no reconocido (sin definición)` `` -/
def unmatchedComment (st : RStep) : String :=
  "    // [" ++ st.keyword ++ "] " ++ st.text ++ " — Step no reconocido (sin definición)"

/-- One iteration of the `for (const step of scenario.steps)` loop. -/
def stepAccum (acc : GenAccum) (st : RStep) : GenAccum :=
  match matchStep st.text with
  | none =>
    { acc with codeBlocks := acc.codeBlocks ++ [⟨st.keyword, st.text, unmatchedComment st⟩] }
  | some (d, m) =>
    { imports := d.imports.foldl addSet acc.imports,
      metrics := d.metrics.foldl (fun l mm => objSet l mm.name mm) acc.metrics,
      thresholds :=
        match d.threshold with
        | none => acc.thresholds
        | some f => pushRule acc.thresholds (f m).1 (f m).2,
      codeBlocks := acc.codeBlocks ++ [⟨st.keyword, st.text, d.code m⟩],
      setupCode :=
        match d.setup with
        | none => acc.setupCode
        | some c => some c }

def accumulateSteps (steps : List RStep) : GenAccum :=
  steps.foldl stepAccum emptyAccum

/-! ## Load profile (`parseDurationToSeconds`, `buildStages`, `buildK6Options`) -/

/-- `parseDurationToSeconds`: `/^(\d+)(s|m|h)$/i`, anything else is 60. -/
def parseDurationToSeconds (duration : String) : Nat :=
  let l := duration.data
  let ds := l.takeWhile Char.isDigit
  let rest := l.dropWhile Char.isDigit
  if ds = [] then 60
  else
    match rest with
    | [u] =>
      if u == 's' || u == 'S' then digitsVal ds
      else if u == 'm' || u == 'M' then digitsVal ds * 60
      else if u == 'h' || u == 'H' then digitsVal ds * 3600
      else 60
    | _ => 60

structure Stage where
  duration : String
  target : Int
deriving DecidableEq

/-- `buildStages`: `null` (here `none`) means "smoke test, use iterations". -/
def buildStages (params : List (String × String)) : Option (List Stage) :=
  let vus : Int := jsToIntOr1 (jsLookup params "vus")
  let duration := jsOrStr (jsLookup params "duration") "30s"
  let totalSeconds := parseDurationToSeconds duration
  if vus ≤ 1 ∧ totalSeconds ≤ 30 then none
  else
    let rampUp := max 10 (totalSeconds * 20 / 100)
    let steady := max 10 (totalSeconds - rampUp - totalSeconds * 15 / 100)
    let rampDown := max 5 (totalSeconds * 15 / 100)
    some [⟨toString rampUp ++ "s", vus⟩, ⟨toString steady ++ "s", vus⟩,
          ⟨toString rampDown ++ "s", 0⟩]

def isSlugKeep (c : Char) : Bool :=
  ('a' ≤ c && c ≤ 'z') || ('0' ≤ c && c ≤ '9')

/-- Collapse consecutive separators (`.replace(/[^a-z0-9]+/g, sep)` replaces
each maximal run by one separator; mapping then collapsing is the same). -/
def collapseRuns (sep : Char) : List Char → List Char
  | [] => []
  | [c] => [c]
  | c :: d :: rest =>
    if c = sep ∧ d = sep then collapseRuns sep (d :: rest)
    else c :: collapseRuns sep (d :: rest)

def trimSep (sep : Char) (l : List Char) : List Char :=
  ((l.dropWhile (· == sep)).reverse.dropWhile (· == sep)).reverse

def slugChars (sep : Char) (l : List Char) : List Char :=
  trimSep sep (collapseRuns sep (l.map (fun c => if isSlugKeep c then c else sep)))

/-- `.toLowerCase()` over the repository's alphabet (see `foldChar`). -/
def jsToLowerCase (s : String) : String :=
  String.mk (s.data.map foldChar)

/-- The scenario key: lowercase, `_`-slug, truncated to 40 characters. -/
def slugKey (name : String) : String :=
  String.mk ((slugChars '_' (jsToLowerCase name).data).take 40)

/-- The `-`-slug used for file names and the report base name. -/
def slugName (name : String) : String :=
  String.mk (slugChars '-' (jsToLowerCase name).data)

structure ScenCfg where
  executor : String
  startVUs : Int
  stages : List Stage
deriving DecidableEq

/-- The `options` object `buildK6Options` assembles: either a `scenarios`
entry (ramping) or `vus`+`iterations` (fixed), plus `thresholds` when any
rule accumulated. -/
structure K6Options where
  scenarios : Option (String × ScenCfg)
  vusIterations : Option (Int × Int)
  thresholds : List (String × List String)
deriving DecidableEq

def buildK6Options (scenario : Resolved) (thresholds : List (String × List String)) :
    K6Options :=
  let params := scenario.parameters
  let vus : Int := jsToIntOr1 (jsLookup params "vus")
  match buildStages params with
  | some stages =>
    ⟨some (slugKey scenario.name, ⟨"ramping-vus", max 1 (vus * 10 / 100), stages⟩),
     none, thresholds⟩
  | none =>
    ⟨none, some (vus, jsToIntOr1 (jsLookup params "iterations")), thresholds⟩

/-! ## `JSON.stringify` -/

inductive Jval where
  | str (s : String)
  | num (n : Int)
  | arr (l : List Jval)
  | obj (fields : List (String × Jval))

def hexDigitChar (n : Nat) : Char :=
  if n < 10 then Char.ofNat (48 + n) else Char.ofNat (87 + n)

def jsonEscChar (c : Char) : String :=
  if c = '"' then "\\\""
  else if c = '\\' then "\\\\"
  else if c = '\n' then "\\n"
  else if c = '\x0d' then "\\r"
  else if c = '\t' then "\\t"
  else if c = '\x08' then "\\b"
  else if c = '\x0c' then "\\f"
  else if c.toNat < 32 then "\\u00" ++ String.mk [hexDigitChar (c.toNat / 16), hexDigitChar (c.toNat % 16)]
  else String.mk [c]

def jsonEsc (s : String) : String :=
  String.join (s.data.map jsonEscChar)

def spacesStr (n : Nat) : String :=
  String.mk (List.replicate n ' ')

mutual

/-- `JSON.stringify(v, null, 4)` at nesting depth `ind` spaces. -/
def jsonRender (ind : Nat) : Jval → String
  | Jval.str s => "\"" ++ jsonEsc s ++ "\""
  | Jval.num n => toString n
  | Jval.arr [] => "[]"
  | Jval.arr (x :: xs) =>
    "[\n" ++ String.intercalate ",\n" (jsonRenderList (ind + 4) (x :: xs)) ++
    "\n" ++ spacesStr ind ++ "]"
  | Jval.obj [] => "\x7b\x7d"
  | Jval.obj (f :: fs) =>
    "\x7b\n" ++ String.intercalate ",\n" (jsonRenderFields (ind + 4) (f :: fs)) ++
    "\n" ++ spacesStr ind ++ "\x7d"

def jsonRenderList (ind : Nat) : List Jval → List String
  | [] => []
  | v :: vs => (spacesStr ind ++ jsonRender ind v) :: jsonRenderList ind vs

def jsonRenderFields (ind : Nat) : List (String × Jval) → List String
  | [] => []
  | (k, v) :: fs =>
    (spacesStr ind ++ "\"" ++ jsonEsc k ++ "\": " ++ jsonRender ind v) :: jsonRenderFields ind fs

end

/-- Compact `JSON.stringify` of a string-valued object (the `Parameters:`
line of the generated header). -/
def jsonCompactObj (fields : List (String × String)) : String :=
  "\x7b" ++
  String.intercalate ","
    (fields.map (fun kv => "\"" ++ jsonEsc kv.1 ++ "\":\"" ++ jsonEsc kv.2 ++ "\"")) ++
  "\x7d"

def k6OptionsJson (o : K6Options) : Jval :=
  Jval.obj
    ((match o.scenarios with
      | some kv =>
        [("scenarios", Jval.obj [(kv.1, Jval.obj
          [("executor", Jval.str kv.2.executor),
           ("startVUs", Jval.num kv.2.startVUs),
           ("stages", Jval.arr (kv.2.stages.map (fun st =>
             Jval.obj [("duration", Jval.str st.duration), ("target", Jval.num st.target)])))])])]
      | none => []) ++
     (match o.vusIterations with
      | some vi => [("vus", Jval.num vi.1), ("iterations", Jval.num vi.2)]
      | none => []) ++
     (if o.thresholds = [] then []
      else [("thresholds", Jval.obj (o.thresholds.map (fun kv =>
        (kv.1, Jval.arr (kv.2.map Jval.str)))))]))

/-! ## Import synthesis (`buildImportStatements`) -/

def AUTH_EXPORTS : List String := ["login", "logout", "getAuthHeaders"]

def ENDPOINT_EXPORTS : List String :=
  ["getProducts", "createProduct", "updateProduct", "getUsers", "createUser",
   "createOrder", "getOrders"]

def HELPER_EXPORTS : List String :=
  ["checkResponse", "parseResponse", "randomItem", "randomInt", "generateEmail",
   "generateUserName", "generateSku", "generateProductName", "randomThinkTime",
   "getTimestamp"]

def CONFIG_EXPORTS : List String := ["BASE_URL", "USERNAME", "PASSWORD"]

/-- The four collaborator-library groups (`libImports` in the source). -/
structure LibImports where
  auth : List String
  endpoints : List String
  helpers : List String
  config : List String
deriving DecidableEq

/-- One iteration of the `for (const imp of imports)` classification chain. -/
def clsStep (g : LibImports) (imp : String) : LibImports :=
  if imp ∈ AUTH_EXPORTS then { g with auth := g.auth ++ [imp] }
  else if imp ∈ ENDPOINT_EXPORTS then { g with endpoints := g.endpoints ++ [imp] }
  else if imp ∈ HELPER_EXPORTS then { g with helpers := g.helpers ++ [imp] }
  else if imp ∈ CONFIG_EXPORTS then { g with config := g.config ++ [imp] }
  else g

/-- The `for (const imp of imports)` classification chain. -/
def classifyImports (imports : List String) : LibImports :=
  imports.foldl clsStep ⟨[], [], [], []⟩

/-- The classification plus the two unconditional additions (`BASE_URL` into
config, `getTimestamp` into helpers). -/
def libImportGroups (imports : List String) : LibImports :=
  let g := classifyImports imports
  let g1 := if "BASE_URL" ∈ g.config then g else { g with config := g.config ++ ["BASE_URL"] }
  if "getTimestamp" ∈ g1.helpers then g1
  else { g1 with helpers := g1.helpers ++ ["getTimestamp"] }

/-- The distinct metric constructor kinds in use (a JS `Set` in the source). -/
def metricTypesOf (metrics : List (String × MetricDecl)) : List String :=
  metrics.foldl (fun acc kv => addSet acc kv.2.mtype) []

/-- `Array.prototype.join('\n')`. -/
def joinLines : List String → String
  | [] => ""
  | [a] => a
  | a :: b :: rest => a ++ "\n" ++ joinLines (b :: rest)

def buildImportStatements (imports : List String)
    (metrics : List (String × MetricDecl)) : String :=
  let lines :=
    ["import \x7b sleep, group \x7d from 'k6';",
     "import http from 'k6/http';",
     "import \x7b check \x7d from 'k6';"]
  let metricTypes := metricTypesOf metrics
  let lines := lines ++
    (if metricTypes = [] then []
     else ["import \x7b " ++ String.intercalate ", " metricTypes ++ " \x7d from 'k6/metrics';"])
  let g := libImportGroups imports
  let lines := lines ++
    (if g.config = [] then []
     else ["import \x7b " ++ String.intercalate ", " g.config ++ " \x7d from '../../lib/config.js';"]) ++
    (if g.auth = [] then []
     else ["import \x7b " ++ String.intercalate ", " g.auth ++ " \x7d from '../../lib/auth.js';"]) ++
    (if g.endpoints = [] then []
     else ["import \x7b " ++ String.intercalate ", " g.endpoints ++ " \x7d from '../../lib/endpoints.js';"]) ++
    (if g.helpers = [] then []
     else ["import \x7b " ++ String.intercalate ", " g.helpers ++ " \x7d from '../../lib/helpers.js';"])
  let lines := lines ++
    ["import \x7b htmlReport \x7d from 'https://raw.githubusercontent.com/benc-uk/k6-reporter/main/dist/bundle.js';",
     "import \x7b textSummary \x7d from 'https://jslib.k6.io/k6-summary/0.1.0/index.js';"]
  joinLines lines

/-- One line of `buildMetricsDeclarations` (unknown kinds produce nothing). -/
def metricDeclLine (m : MetricDecl) : Option String :=
  if m.mtype = "Trend" then
    some ("const " ++ m.name ++ " = new Trend('" ++ m.k6name ++ "', " ++
          (if m.isTime then "true" else "false") ++ ");")
  else if m.mtype = "Rate" then
    some ("const " ++ m.name ++ " = new Rate('" ++ m.k6name ++ "');")
  else if m.mtype = "Counter" then
    some ("const " ++ m.name ++ " = new Counter('" ++ m.k6name ++ "');")
  else if m.mtype = "Gauge" then
    some ("const " ++ m.name ++ " = new Gauge('" ++ m.k6name ++ "');")
  else none

def buildMetricsDeclarations (metrics : List (String × MetricDecl)) : String :=
  joinLines (metrics.filterMap (fun kv => metricDeclLine kv.2))

/-! ## Script assembly (`generateSingleScript`, `parts.push(...)` sequence) -/

/-- JS `code.split('\n')` on `List Char`. -/
def splitLinesL : List Char → List (List Char)
  | [] => [[]]
  | c :: cs =>
    let r := splitLinesL cs
    if c = '\n' then [] :: r else (c :: r.headD []) :: r.tail

def splitLines (s : String) : List String :=
  (splitLinesL s.data).map String.mk

/-- `block.code.split('\n').map(line => "        " + line).join('\n')`. -/
def indent8 (code : String) : String :=
  joinLines ((splitLines code).map (fun l => "        " ++ l))

/-- `.replace(/'/g, "\\'")`. -/
def escapeQuotes (s : String) : String :=
  String.mk (s.data.flatMap (fun c => if c = '\'' then ['\\', '\''] else [c]))

def divider : String := "// " ++ String.mk (List.replicate 61 '─')

/-- The generated header up to the spliced timestamp. -/
def headerPre (f : GFeature) (s : Resolved) : String :=
  "/**\n * K6 Performance Test — Auto-generated from BDD Feature\n * \n * Feature: " ++
  f.name ++ "\n * Scenario: " ++ s.name ++ "\n * Examples: " ++
  jsOrStr s.examplesName "N/A" ++ "\n * Parameters: " ++
  jsonCompactObj s.parameters ++ "\n * \n * Generated at: "

/-- The generated header after the spliced timestamp. -/
def headerPost : String :=
  "\n * ⚠️  DO NOT EDIT — This file is auto-generated by the BDD runner.\n *     Edit the .feature file and step definitions instead.\n */"

def headerPart (f : GFeature) (s : Resolved) (ts : String) : String :=
  headerPre f s ++ ts ++ headerPost

def setupPart (c : String) : String :=
  "export function setup() \x7b" ++ c ++ "\n\x7d"

def groupHeaderPart (b : Block) : String :=
  "    group('" ++ b.keyword ++ " " ++ escapeQuotes b.stepText ++ "', function () \x7b"

/-- The three parts each code block contributes to the workload. -/
def blockParts (b : Block) : List String :=
  [groupHeaderPart b, indent8 b.code, "    \x7d);"]

def teardownPart (dp sname : String) : String :=
  "export function teardown(" ++ dp ++ ") \x7b\n    console.log('🏁 Test BDD completado: " ++
  escapeQuotes sname ++ "');\n\x7d"

def handleSummaryPart (reportName : String) : String :=
  "export function handleSummary(data) \x7b\n    const ts = getTimestamp();\n    return \x7b\n        [`reports/bdd-" ++
  reportName ++ "_$\x7bts\x7d.html`]: htmlReport(data),\n        [`reports/bdd-" ++
  reportName ++
  "_$\x7bts\x7d.json`]: JSON.stringify(data, null, 2),\n        stdout: textSummary(data, \x7b indent: ' ', enableColors: true \x7d),\n    \x7d;\n\x7d"

/-- Every `parts.push(...)` after the header (all of them independent of the
generation timestamp; the accumulators are recomputed here, which agrees by
purity with the source's single computation). -/
def scriptRest (_f : GFeature) (s : Resolved) : List String :=
  let acc := accumulateSteps s.steps
  let k6Options := buildK6Options s acc.thresholds
  let importStatements := buildImportStatements acc.imports acc.metrics
  let metricsDeclarations := buildMetricsDeclarations acc.metrics
  let dp := if acc.setupCode.isSome then "data" else ""
  importStatements :: "" ::
  ((if metricsDeclarations = "" then []
    else [divider, "// CUSTOM METRICS", divider, metricsDeclarations, ""]) ++
   [divider, "// OPTIONS", divider,
    "export const options = " ++ jsonRender 0 (k6OptionsJson k6Options) ++ ";", ""] ++
   (match acc.setupCode with
    | some c => [divider, "// SETUP", divider, setupPart c, ""]
    | none => []) ++
   [divider, "// DEFAULT — " ++ s.name, divider,
    "export default function (" ++ dp ++ ") \x7b"] ++
   acc.codeBlocks.flatMap blockParts ++
   ["\x7d", "", divider, "// TEARDOWN", divider, teardownPart dp s.name, "",
    divider, "// REPORT", divider, handleSummaryPart (slugName s.name)])

/-- The `parts` array of `generateSingleScript`, in push order; `ts` stands
for `new Date().toISOString()`. -/
def scriptParts (f : GFeature) (s : Resolved) (ts : String) : List String :=
  headerPart f s ts :: "" :: scriptRest f s

/-- `generateSingleScript`: the complete generated k6 script text. -/
def generateSingleScript (f : GFeature) (s : Resolved) (ts : String) : String :=
  joinLines (scriptParts f s ts)

/-! ## Runner execution loop (`bdd/runner.js`, phase 3)

The subprocess boundary (`execSync` of the external k6 engine, including its
timeout) is modelled by an oracle `exec`: `failure` stands for a non-zero
exit status or a timeout (the `catch` branch of the loop). -/

/-- What one `k6 run` subprocess invocation did. -/
inductive ExecOutcome where
  | success (out : String)
  | failure (out : String)

/-- A generated script as the runner sees it. -/
structure ScriptRef where
  name : String
  path : String

/-- `allPassed` flag and accumulated `results` of the execution loop. -/
structure RunState where
  allPassed : Bool
  results : List (String × String)

/-- The `for (const script of allGenerated)` loop with its `try`/`catch`. -/
def runAll (exec : ScriptRef → ExecOutcome) (scripts : List ScriptRef) : RunState :=
  scripts.foldl
    (fun st sc =>
      match exec sc with
      | ExecOutcome.success _ => ⟨st.allPassed, st.results ++ [(sc.name, "PASS")]⟩
      | ExecOutcome.failure _ => ⟨false, st.results ++ [(sc.name, "FAIL")]⟩)
    ⟨true, []⟩

/-- `process.exit(allPassed ? 0 : 1)`. -/
def runnerExitCode (exec : ScriptRef → ExecOutcome) (scripts : List ScriptRef) : Nat :=
  if (runAll exec scripts).allPassed then 0 else 1

/-! ## Shared lemmas -/

theorem strData_append (a b : String) : (a ++ b).data = a.data ++ b.data := by
  cases a
  cases b
  rfl

theorem occurs_append_keep_right (pat a b : List Char) (h : occurs pat a) :
    occurs pat (a ++ b) := by
  obtain ⟨s, t, rfl⟩ := h
  exact ⟨s, t ++ b, by simp⟩

theorem occurs_append_keep_left (pat a b : List Char) (h : occurs pat b) :
    occurs pat (a ++ b) := by
  obtain ⟨s, t, rfl⟩ := h
  exact ⟨a ++ s, t, by simp⟩

theorem occursStr_append_left (p a b : String) (h : occursStr p a) :
    occursStr p (a ++ b) := by
  unfold occursStr at *
  rw [strData_append]
  exact occurs_append_keep_right _ _ _ h

theorem occursStr_append_right (p a b : String) (h : occursStr p b) :
    occursStr p (a ++ b) := by
  unfold occursStr at *
  rw [strData_append]
  exact occurs_append_keep_left _ _ _ h

theorem occursStr_of_mem_joinLines (p q : String) (parts : List String)
    (hq : q ∈ parts) (h : occursStr p q) : occursStr p (joinLines parts) := by
  induction parts with
  | nil => simp at hq
  | cons a rest ih =>
    cases rest with
    | nil =>
      simp at hq
      simpa [joinLines, hq] using h
    | cons b rest2 =>
      rw [show joinLines (a :: b :: rest2) = a ++ "\n" ++ joinLines (b :: rest2) from rfl]
      rcases List.mem_cons.mp hq with h1 | h2
      · exact occursStr_append_left _ _ _ (occursStr_append_left _ _ _ (h1 ▸ h))
      · exact occursStr_append_right _ _ _ (ih h2)

/-! ## C9 — generation determinism up to the timestamp -/

/-- C9: invoking the generator twice on the same (feature, resolvedScenario)
yields byte-identical script text except for the embedded generation
timestamp: the script is a fixed prefix, the timestamp, and a fixed suffix,
all three depending only on (feature, scenario). -/
theorem generateSingleScript_timestamp_only (f : GFeature) (s : Resolved) :
    ∃ pre post : String, ∀ ts : String, generateSingleScript f s ts = pre ++ ts ++ post := by
  refine ⟨headerPre f s, headerPost ++ "\n" ++ joinLines ("" :: scriptRest f s), fun ts => ?_⟩
  show joinLines (headerPart f s ts :: "" :: scriptRest f s) = _
  rw [show joinLines (headerPart f s ts :: "" :: scriptRest f s)
        = headerPart f s ts ++ "\n" ++ joinLines ("" :: scriptRest f s) from rfl]
  rw [show headerPart f s ts = headerPre f s ++ ts ++ headerPost from rfl]
  simp [String.append_assoc]

/-! ## C8 — runner failure semantics -/

/-- PASS/FAIL of one subprocess outcome, as the loop records it. -/
def outcomeStatus (o : ExecOutcome) : String :=
  match o with
  | ExecOutcome.success _ => "PASS"
  | ExecOutcome.failure _ => "FAIL"

theorem runAll_characterization (exec : ScriptRef → ExecOutcome) :
    ∀ (scripts : List ScriptRef) (st : RunState),
      (List.foldl
        (fun st sc =>
          match exec sc with
          | ExecOutcome.success _ => ⟨st.allPassed, st.results ++ [(sc.name, "PASS")]⟩
          | ExecOutcome.failure _ => ⟨false, st.results ++ [(sc.name, "FAIL")]⟩)
        st scripts).results
        = st.results ++ scripts.map (fun sc => (sc.name, outcomeStatus (exec sc))) ∧
      (List.foldl
        (fun st sc =>
          match exec sc with
          | ExecOutcome.success _ => ⟨st.allPassed, st.results ++ [(sc.name, "PASS")]⟩
          | ExecOutcome.failure _ => ⟨false, st.results ++ [(sc.name, "FAIL")]⟩)
        st scripts).allPassed
        = (st.allPassed && scripts.all (fun sc => outcomeStatus (exec sc) == "PASS")) := by
  intro scripts
  induction scripts with
  | nil => intro st; simp
  | cons sc rest ih =>
    intro st
    cases hx : exec sc with
    | success out =>
      simp only [List.foldl_cons, hx]
      have h2 := ih ⟨st.allPassed, st.results ++ [(sc.name, "PASS")]⟩
      refine ⟨?_, ?_⟩
      · rw [h2.1]
        simp [outcomeStatus, hx]
      · rw [h2.2]
        simp [outcomeStatus, hx]
    | failure out =>
      simp only [List.foldl_cons, hx]
      have h2 := ih ⟨false, st.results ++ [(sc.name, "FAIL")]⟩
      refine ⟨?_, ?_⟩
      · rw [h2.1]
        simp [outcomeStatus, hx]
      · rw [h2.2]
        simp [outcomeStatus, hx]

/-- C8: every scenario is executed and recorded whatever the earlier exit
statuses were (a failing subprocess marks its scenario FAIL without
suppressing the rest), and the runner's process exit code is 0 iff every
executed scenario passed. -/
theorem runScripts_continue_on_error (exec : ScriptRef → ExecOutcome)
    (scripts : List ScriptRef) :
    (runAll exec scripts).results
      = scripts.map (fun sc => (sc.name, outcomeStatus (exec sc))) ∧
    (runnerExitCode exec scripts = 0 ↔
      ∀ r ∈ (runAll exec scripts).results, r.2 = "PASS") := by
  have h := runAll_characterization exec scripts ⟨true, []⟩
  have hres : (runAll exec scripts).results
      = scripts.map (fun sc => (sc.name, outcomeStatus (exec sc))) := by
    rw [show runAll exec scripts
          = List.foldl
              (fun st sc =>
                match exec sc with
                | ExecOutcome.success _ => ⟨st.allPassed, st.results ++ [(sc.name, "PASS")]⟩
                | ExecOutcome.failure _ => ⟨false, st.results ++ [(sc.name, "FAIL")]⟩)
              ⟨true, []⟩ scripts from rfl]
    rw [h.1]
    simp
  refine ⟨hres, ?_⟩
  rw [runnerExitCode]
  have hall : (runAll exec scripts).allPassed
      = scripts.all (fun sc => outcomeStatus (exec sc) == "PASS") := by
    rw [show runAll exec scripts
          = List.foldl
              (fun st sc =>
                match exec sc with
                | ExecOutcome.success _ => ⟨st.allPassed, st.results ++ [(sc.name, "PASS")]⟩
                | ExecOutcome.failure _ => ⟨false, st.results ++ [(sc.name, "FAIL")]⟩)
              ⟨true, []⟩ scripts from rfl]
    rw [h.2]
    simp
  rw [hres, hall]
  by_cases hb : scripts.all (fun sc => outcomeStatus (exec sc) == "PASS") = true
  · simp only [hb, if_true]
    simp only [List.all_eq_true] at hb
    constructor
    · intro _ r hr
      rcases List.mem_map.mp hr with ⟨sc, hsc, rfl⟩
      simpa using hb sc hsc
    · intro _
      trivial
  · have hb2 : scripts.all (fun sc => outcomeStatus (exec sc) == "PASS") = false := by
      cases h2 : scripts.all (fun sc => outcomeStatus (exec sc) == "PASS")
      · rfl
      · exact absurd h2 hb
    rw [hb2]
    simp only [List.all_eq_true] at hb
    constructor
    · intro h0
      simp at h0
    · intro hforall
      exfalso
      apply hb
      intro sc hsc
      have := hforall (sc.name, outcomeStatus (exec sc)) (List.mem_map.mpr ⟨sc, hsc, rfl⟩)
      simpa using this

/-! ## C1 — load-profile derivation -/

/-- C1 counterexample: `"0"` is a numeric vus string (parseInt gives 0), so
the claim predicts a fixed profile carrying the given vus 0; but
`parseInt(params.vus) || 1` treats the numeric 0 as falsy and the code emits
vus 1. -/
theorem buildK6Options_vus_zero_cex :
    jsParseInt "0" = some 0 ∧
    (buildK6Options ⟨"S", [], "scenario", none, [("vus", "0"), ("duration", "10s")], []⟩
        []).vusIterations = some (1, 1) ∧
    ¬ (buildK6Options ⟨"S", [], "scenario", none, [("vus", "0"), ("duration", "10s")], []⟩
        []).vusIterations = some (0, 1) := by
  refine ⟨by decide, by decide, by decide⟩

/-- C1 (amended): the load profile derived from a scenario's parameters.
`vus` defaults to 1 when absent, non-numeric, or parsing to 0 (JS falsiness);
`duration` defaults to "30s" when absent or empty; a duration not of the form
digits+`s`/`m`/`h` (case-insensitively) counts 60 seconds. If vus ≤ 1 and
total ≤ 30 the profile is fixed with iterations = parameters.iterations
(defaulted the same way as vus); otherwise it ramps over exactly three stages
rampUp = max(10, ⌊0.20·t⌋), steady = max(10, t − rampUp − ⌊0.15·t⌋),
rampDown = max(5, ⌊0.15·t⌋), targets [vus, vus, 0], starting VUs
max(1, ⌊0.1·vus⌋). In particular vus=20, duration="2m" yields 24s/78s/18s
stages with startVUs 2, and vus=1, duration="10s" yields a fixed profile
with 1 iteration. -/
theorem buildK6Options_profile_amended :
    (∀ (s : Resolved) (th : List (String × List String)),
      (jsToIntOr1 (jsLookup s.parameters "vus") ≤ 1 ∧
          parseDurationToSeconds (jsOrStr (jsLookup s.parameters "duration") "30s") ≤ 30 →
        buildK6Options s th
          = ⟨none,
             some (jsToIntOr1 (jsLookup s.parameters "vus"),
                   jsToIntOr1 (jsLookup s.parameters "iterations")), th⟩) ∧
      (¬ (jsToIntOr1 (jsLookup s.parameters "vus") ≤ 1 ∧
            parseDurationToSeconds (jsOrStr (jsLookup s.parameters "duration") "30s") ≤ 30) →
        buildK6Options s th
          = ⟨some (slugKey s.name,
              ⟨"ramping-vus",
               max 1 (jsToIntOr1 (jsLookup s.parameters "vus") * 10 / 100),
               [⟨toString (max 10
                    (parseDurationToSeconds (jsOrStr (jsLookup s.parameters "duration") "30s")
                      * 20 / 100)) ++ "s",
                 jsToIntOr1 (jsLookup s.parameters "vus")⟩,
                ⟨toString (max 10
                    (parseDurationToSeconds (jsOrStr (jsLookup s.parameters "duration") "30s")
                      - max 10
                          (parseDurationToSeconds (jsOrStr (jsLookup s.parameters "duration") "30s")
                            * 20 / 100)
                      - parseDurationToSeconds (jsOrStr (jsLookup s.parameters "duration") "30s")
                          * 15 / 100)) ++ "s",
                 jsToIntOr1 (jsLookup s.parameters "vus")⟩,
                ⟨toString (max 5
                    (parseDurationToSeconds (jsOrStr (jsLookup s.parameters "duration") "30s")
                      * 15 / 100)) ++ "s",
                 0⟩]⟩),
             none, th⟩)) ∧
    (∀ name : String,
      (buildK6Options ⟨name, [], "scenario_outline", none,
          [("vus", "20"), ("duration", "2m")], []⟩ []).scenarios
        = some (slugKey name,
            ⟨"ramping-vus", 2, [⟨"24s", 20⟩, ⟨"78s", 20⟩, ⟨"18s", 0⟩]⟩)) ∧
    (buildK6Options ⟨"S", [], "scenario", none, [("vus", "1"), ("duration", "10s")], []⟩ []
      = ⟨none, some (1, 1), []⟩) := by
  refine ⟨?_, ?_, by decide⟩
  · intro s th
    have hb : buildStages s.parameters
        = if jsToIntOr1 (jsLookup s.parameters "vus") ≤ 1 ∧
              parseDurationToSeconds (jsOrStr (jsLookup s.parameters "duration") "30s") ≤ 30
          then none
          else some
            [⟨toString (max 10
                (parseDurationToSeconds (jsOrStr (jsLookup s.parameters "duration") "30s")
                  * 20 / 100)) ++ "s",
              jsToIntOr1 (jsLookup s.parameters "vus")⟩,
             ⟨toString (max 10
                (parseDurationToSeconds (jsOrStr (jsLookup s.parameters "duration") "30s")
                  - max 10
                      (parseDurationToSeconds (jsOrStr (jsLookup s.parameters "duration") "30s")
                        * 20 / 100)
                  - parseDurationToSeconds (jsOrStr (jsLookup s.parameters "duration") "30s")
                      * 15 / 100)) ++ "s",
              jsToIntOr1 (jsLookup s.parameters "vus")⟩,
             ⟨toString (max 5
                (parseDurationToSeconds (jsOrStr (jsLookup s.parameters "duration") "30s")
                  * 15 / 100)) ++ "s",
              0⟩] := rfl
    constructor
    · intro h
      simp only [buildK6Options]
      rw [hb, if_pos h]
    · intro h
      simp only [buildK6Options]
      rw [hb, if_neg h]
  · intro name
    simp only [buildK6Options]
    rw [show buildStages [("vus", "20"), ("duration", "2m")]
          = some [⟨"24s", 20⟩, ⟨"78s", 20⟩, ⟨"18s", 0⟩] from by decide]
    rw [show jsToIntOr1 (jsLookup [("vus", "20"), ("duration", "2m")] "vus") = 20 from by decide]
    rw [show (1 : Int) ⊔ 20 * 10 / 100 = 2 from by decide]

/-! ## C4 — step matcher contract -/

theorem findFirstMatch_spec (text : String) :
    ∀ defs : List StepDef,
      (findFirstMatch defs text = none ↔ ∀ d ∈ defs, patMatch d.pattern text = none) ∧
      (∀ d m, findFirstMatch defs text = some (d, m) →
        ∃ i : Nat, ∃ hi : i < defs.length,
          defs.get ⟨i, hi⟩ = d ∧ patMatch d.pattern text = some m ∧
          ∀ j (hj : j < i), patMatch (defs.get ⟨j, Nat.lt_trans hj hi⟩).pattern text = none) := by
  intro defs
  induction defs with
  | nil =>
    refine ⟨by simp [findFirstMatch], ?_⟩
    intro d m h
    simp [findFirstMatch] at h
  | cons d0 rest ih =>
    cases hp : patMatch d0.pattern text with
    | some m0 =>
      have hf : findFirstMatch (d0 :: rest) text = some (d0, m0) := by
        simp [findFirstMatch, hp]
      refine ⟨?_, ?_⟩
      · rw [hf]
        simp only [List.mem_cons]
        constructor
        · intro h
          exact absurd h (by simp)
        · intro h
          exact absurd (h d0 (Or.inl rfl)) (by simp [hp])
      · intro d m h
        rw [hf] at h
        have h2 : (d0, m0) = (d, m) := Option.some.inj h
        cases h2
        refine ⟨0, by simp, by simp, hp, ?_⟩
        intro j hj
        omega
    | none =>
      have hf : findFirstMatch (d0 :: rest) text = findFirstMatch rest text := by
        simp [findFirstMatch, hp]
      refine ⟨?_, ?_⟩
      · rw [hf, ih.1]
        simp only [List.mem_cons]
        constructor
        · intro h d hd
          rcases hd with rfl | hd
          · exact hp
          · exact h d hd
        · intro h d hd
          exact h d (Or.inr hd)
      · intro d m h
        rw [hf] at h
        obtain ⟨i, hi, hget, hpat, hprev⟩ := ih.2 d m h
        refine ⟨i + 1, by simpa using Nat.succ_lt_succ hi, by simpa using hget, hpat, ?_⟩
        intro j hj
        cases j with
        | zero => simpa using hp
        | succ jj =>
          have := hprev jj (by omega)
          simpa using this

/-- C4: `matchStep` returns the (definition, match array) of the first
pattern in registry declaration order that matches, and `none` exactly when
no registry pattern matches; it is a total function on strings (the
embedding's type already rules out exceptions) and deterministic by
purity. -/
theorem matchStep_first_match (text : String) :
    (matchStep text = none ↔ ∀ d ∈ STEP_DEFINITIONS, patMatch d.pattern text = none) ∧
    (∀ d m, matchStep text = some (d, m) →
      ∃ i : Nat, ∃ hi : i < STEP_DEFINITIONS.length,
        STEP_DEFINITIONS.get ⟨i, hi⟩ = d ∧ patMatch d.pattern text = some m ∧
        ∀ j (hj : j < i),
          patMatch (STEP_DEFINITIONS.get ⟨j, Nat.lt_trans hj hi⟩).pattern text = none) :=
  findFirstMatch_spec text STEP_DEFINITIONS

/-! ## C7 — accumulation semantics -/

/-- First-of-two options (`orO a b` is `a` unless `a` is `none`). -/
def orO {α : Type} (a b : Option α) : Option α :=
  match a with
  | some v => some v
  | none => b

/-- The metrics the matched definition of a step declares (none if the step
is unmatched). -/
def metricsOfStep (st : RStep) : List MetricDecl :=
  match matchStep st.text with
  | some dm => dm.1.metrics
  | none => []

/-- All declarations of metric `name` across the steps, in step order. -/
def declaredFor (steps : List RStep) (name : String) : List MetricDecl :=
  steps.flatMap (fun st => (metricsOfStep st).filter (fun mm => mm.name = name))

/-- The threshold rules for `metric` contributed by the steps, in step order. -/
def rulesFor (steps : List RStep) (metric : String) : List String :=
  steps.flatMap (fun st =>
    match matchStep st.text with
    | some dm =>
      match dm.1.threshold with
      | some f => if (f dm.2).1 = metric then [(f dm.2).2] else []
      | none => []
    | none => [])

/-- The setup code a step's matched definition carries, if any. -/
def setupOfStep (st : RStep) : Option String :=
  match matchStep st.text with
  | some dm => dm.1.setup
  | none => none

theorem orO_assoc {α : Type} (a b c : Option α) : orO (orO a b) c = orO a (orO b c) := by
  cases a <;> simp [orO]

theorem getLast?_append_orO {α : Type} (a b : List α) :
    (a ++ b).getLast? = orO b.getLast? a.getLast? := by
  cases b with
  | nil => simp [orO]
  | cons x xs =>
    rw [List.getLast?_append_of_ne_nil a (List.cons_ne_nil x xs)]
    cases h : (x :: xs).getLast? with
    | none =>
      exact absurd h (by simp [List.getLast?_eq_getLast _ (List.cons_ne_nil x xs)])
    | some v => simp [orO]

theorem jsLookup_objSet {α : Type} (l : List (String × α)) (k k' : String) (v : α) :
    jsLookup (objSet l k v) k' = if k' = k then some v else jsLookup l k' := by
  induction l with
  | nil =>
    simp only [objSet, jsLookup]
    by_cases h : k = k'
    · rw [if_pos h, if_pos h.symm]
    · rw [if_neg h, if_neg (fun he => h he.symm)]
  | cons kv rest ih =>
    obtain ⟨k0, v0⟩ := kv
    simp only [objSet]
    by_cases h0 : k0 = k
    · subst h0
      rw [if_pos rfl]
      simp only [jsLookup]
      by_cases h : k0 = k'
      · rw [if_pos h, if_pos h.symm]
      · rw [if_neg h, if_neg (fun he => h he.symm), if_neg h]
    · rw [if_neg h0]
      simp only [jsLookup]
      by_cases h : k0 = k'
      · have h2 : ¬ k' = k := fun he => h0 (h.trans he)
        rw [if_pos h, if_neg h2, if_pos h]
      · rw [if_neg h, ih]
        by_cases hk : k' = k
        · rw [if_pos hk, if_pos hk]
        · rw [if_neg hk, if_neg hk, if_neg h]

theorem getLast?_cons_orO {α : Type} (a : α) (l : List α) (x : Option α) :
    orO ((a :: l).getLast?) x = orO l.getLast? (some a) := by
  cases l with
  | nil => simp [orO]
  | cons b bs =>
    rw [List.getLast?_cons_cons]
    cases h : (b :: bs).getLast? with
    | none => exact absurd h (by simp [List.getLast?_eq_getLast _ (List.cons_ne_nil b bs)])
    | some v => simp [orO]

theorem jsLookup_metricsFold (ms : List MetricDecl) :
    ∀ (init : List (String × MetricDecl)) (name : String),
      jsLookup (ms.foldl (fun l mm => objSet l mm.name mm) init) name
        = orO ((ms.filter (fun mm => mm.name = name)).getLast?) (jsLookup init name) := by
  induction ms with
  | nil => intro init name; simp [orO]
  | cons mm rest ih =>
    intro init name
    simp only [List.foldl_cons, List.filter_cons]
    by_cases h : mm.name = name
    · rw [ih, jsLookup_objSet]
      have hnm : name = mm.name := h.symm
      rw [if_pos hnm]
      simp only [h, decide_True, if_true]
      exact (getLast?_cons_orO mm (rest.filter (fun mm => mm.name = name)) (jsLookup init name)).symm
    · rw [ih, jsLookup_objSet]
      have hnm : ¬ name = mm.name := fun he => h he.symm
      rw [if_neg hnm]
      simp [h]

theorem jsLookup_pushRule (l : List (String × List String)) (m r m' : String) :
    jsLookup (pushRule l m r) m'
      = if m' = m then some ((jsLookup l m).getD [] ++ [r]) else jsLookup l m' := by
  induction l with
  | nil =>
    simp only [pushRule, jsLookup]
    by_cases h : m = m'
    · rw [if_pos h, if_pos h.symm]
      simp
    · rw [if_neg h, if_neg (fun he => h he.symm)]
  | cons kv rest ih =>
    obtain ⟨k0, rs0⟩ := kv
    simp only [pushRule]
    by_cases h0 : k0 = m
    · subst h0
      rw [if_pos rfl]
      simp only [jsLookup]
      by_cases h : k0 = m'
      · rw [if_pos h, if_pos h.symm]
        simp [jsLookup]
      · rw [if_neg h, if_neg (fun he => h he.symm), if_neg h]
    · rw [if_neg h0]
      simp only [jsLookup]
      by_cases h : k0 = m'
      · have h2 : ¬ m' = m := fun he => h0 (h.trans he)
        rw [if_pos h, if_neg h2, if_pos h]
      · rw [if_neg h, ih]
        by_cases hk : m' = m
        · rw [if_pos hk, if_pos hk, if_neg (fun he : k0 = m => h0 he)]
        · rw [if_neg hk, if_neg hk, if_neg h]

/-- How a base threshold list extends by appended rules. -/
def extendTh (base : Option (List String)) (rs : List String) : Option (List String) :=
  match base, rs with
  | none, [] => none
  | none, rs => some rs
  | some l, rs => some (l ++ rs)

theorem extendTh_append (base : Option (List String)) (a b : List String) :
    extendTh (extendTh base a) b = extendTh base (a ++ b) := by
  cases base with
  | none =>
    cases a with
    | nil => simp [extendTh]
    | cons x xs =>
      cases b <;> simp [extendTh]
  | some l =>
    cases a <;> cases b <;> simp [extendTh]

theorem orO_none_right {α : Type} (a : Option α) : orO a none = a := by
  cases a <;> simp [orO]

theorem extendTh_nil (base : Option (List String)) : extendTh base [] = base := by
  cases base <;> simp [extendTh]

/-- The matched-definition step contribution to `codeBlocks`. -/
def blockOf (st : RStep) : Block :=
  match matchStep st.text with
  | none => ⟨st.keyword, st.text, unmatchedComment st⟩
  | some dm => ⟨st.keyword, st.text, dm.1.code dm.2⟩

theorem accum_metrics_lookup (steps : List RStep) :
    ∀ (init : GenAccum) (name : String),
      jsLookup ((steps.foldl stepAccum init).metrics) name
        = orO ((declaredFor steps name).getLast?) (jsLookup init.metrics name) := by
  induction steps with
  | nil => intro init name; simp [declaredFor, orO]
  | cons st rest ih =>
    intro init name
    have hstep : (stepAccum init st).metrics
        = (metricsOfStep st).foldl (fun l mm => objSet l mm.name mm) init.metrics := by
      cases h : matchStep st.text with
      | none => simp [stepAccum, h, metricsOfStep]
      | some dm => simp [stepAccum, h, metricsOfStep]
    have hdecl : declaredFor (st :: rest) name
        = (metricsOfStep st).filter (fun mm => mm.name = name) ++ declaredFor rest name := by
      simp [declaredFor]
    rw [List.foldl_cons, ih, hstep, jsLookup_metricsFold, hdecl,
        getLast?_append_orO, orO_assoc]

theorem accum_thresholds_lookup (steps : List RStep) :
    ∀ (init : GenAccum) (metric : String),
      jsLookup ((steps.foldl stepAccum init).thresholds) metric
        = extendTh (jsLookup init.thresholds metric) (rulesFor steps metric) := by
  induction steps with
  | nil => intro init metric; simp [rulesFor, extendTh]; cases jsLookup init.thresholds metric <;> simp [extendTh]
  | cons st rest ih =>
    intro init metric
    have hrules : rulesFor (st :: rest) metric
        = (match matchStep st.text with
           | some dm =>
             match dm.1.threshold with
             | some f => if (f dm.2).1 = metric then [(f dm.2).2] else []
             | none => []
           | none => []) ++ rulesFor rest metric := by
      simp [rulesFor]
    rw [List.foldl_cons, ih, hrules]
    cases h : matchStep st.text with
    | none =>
      simp only [stepAccum, h]
      rw [List.nil_append]
    | some dm =>
      cases ht : dm.1.threshold with
      | none =>
        simp only [stepAccum, h, ht]
        rw [List.nil_append]
      | some fthr =>
        simp only [stepAccum, h, ht]
        rw [← extendTh_append]
        congr 1
        by_cases hm : (fthr dm.2).1 = metric
        · rw [hm, jsLookup_pushRule, if_pos rfl, if_pos rfl]
          cases hl : jsLookup init.thresholds metric <;> simp [extendTh, hl]
        · rw [jsLookup_pushRule, if_neg (fun he => hm he.symm), if_neg hm, extendTh_nil]

theorem accum_setup (steps : List RStep) :
    ∀ init : GenAccum,
      (steps.foldl stepAccum init).setupCode
        = orO ((steps.filterMap setupOfStep).getLast?) init.setupCode := by
  induction steps with
  | nil => intro init; simp [orO]
  | cons st rest ih =>
    intro init
    have hstep : (stepAccum init st).setupCode = orO (setupOfStep st) init.setupCode := by
      cases h : matchStep st.text with
      | none => simp [stepAccum, h, setupOfStep, orO]
      | some dm =>
        cases hs : dm.1.setup <;> simp [stepAccum, h, setupOfStep, hs, orO]
    rw [List.foldl_cons, ih, hstep]
    cases hf : setupOfStep st with
    | none =>
      simp only [List.filterMap_cons, hf]
      simp [orO]
    | some c =>
      simp only [List.filterMap_cons, hf]
      rw [getLast?_cons_orO]
      rfl

theorem accum_codeBlocks (steps : List RStep) :
    ∀ init : GenAccum,
      (steps.foldl stepAccum init).codeBlocks = init.codeBlocks ++ steps.map blockOf := by
  induction steps with
  | nil => intro init; simp
  | cons st rest ih =>
    intro init
    have hstep : (stepAccum init st).codeBlocks = init.codeBlocks ++ [blockOf st] := by
      cases h : matchStep st.text with
      | none => simp [stepAccum, h, blockOf]
      | some dm => simp [stepAccum, h, blockOf]
    rw [List.foldl_cons, ih, hstep]
    simp

theorem occursStr_self (p : String) : occursStr p p :=
  ⟨[], [], by simp⟩

/-- C7: during generation of one scenario, (i) the metric mapping is keyed
by metric name and the last step declaring a name wins; (ii) each matched
threshold appends its rule to a per-metric list, so one metric may
accumulate several rules across steps; (iii) of several steps carrying
setup code only the last one in step order is kept, and exactly that setup
block appears in the generated script. -/
theorem accumulateSteps_merge_semantics :
    (∀ (steps : List RStep) (name : String),
      jsLookup (accumulateSteps steps).metrics name = (declaredFor steps name).getLast?) ∧
    (∀ (steps : List RStep) (metric : String),
      jsLookup (accumulateSteps steps).thresholds metric
        = if rulesFor steps metric = [] then none else some (rulesFor steps metric)) ∧
    (∀ steps : List RStep,
      (accumulateSteps steps).setupCode = (steps.filterMap setupOfStep).getLast?) ∧
    (∀ (f : GFeature) (s : Resolved) (ts c : String),
      (accumulateSteps s.steps).setupCode = some c →
        occursStr (setupPart c) (generateSingleScript f s ts)) := by
  refine ⟨?_, ?_, ?_, ?_⟩
  · intro steps name
    rw [accumulateSteps, accum_metrics_lookup]
    show orO _ (jsLookup [] name) = _
    rw [show jsLookup ([] : List (String × MetricDecl)) name = none from rfl, orO_none_right]
  · intro steps metric
    rw [accumulateSteps, accum_thresholds_lookup]
    rw [show jsLookup emptyAccum.thresholds metric = none from rfl]
    cases h : rulesFor steps metric with
    | nil => simp [extendTh]
    | cons r rs => simp [extendTh]
  · intro steps
    rw [accumulateSteps, accum_setup]
    rw [show emptyAccum.setupCode = none from rfl, orO_none_right]
  · intro f s ts c hc
    have h1 : setupPart c ∈ ([divider, "// SETUP", divider, setupPart c, ""] : List String) := by
      simp
    have hmem : setupPart c ∈ scriptParts f s ts := by
      simp only [scriptParts, scriptRest, hc]
      refine List.mem_cons_of_mem _ (List.mem_cons_of_mem _ (List.mem_cons_of_mem _
        (List.mem_cons_of_mem _ ?_)))
      exact List.mem_append_left _ (List.mem_append_left _ (List.mem_append_left _
        (List.mem_append_right _ h1)))
    exact occursStr_of_mem_joinLines _ _ _ hmem (occursStr_self _)

/-! ## C5 — unrecognized-step handling -/

theorem strExt (a b : String) (h : a.data = b.data) : a = b := by
  cases a
  cases b
  exact congrArg String.mk h

/-- The side accumulators (everything except `codeBlocks`). -/
def sideAccum (a : GenAccum) :
    List String × List (String × MetricDecl) × List (String × List String) × Option String :=
  (a.imports, a.metrics, a.thresholds, a.setupCode)

theorem sideAccum_stepAccum (a b : GenAccum) (st : RStep) (h : sideAccum a = sideAccum b) :
    sideAccum (stepAccum a st) = sideAccum (stepAccum b st) := by
  have h1 : a.imports = b.imports := congrArg (fun x => x.1) h
  have h2 : a.metrics = b.metrics := congrArg (fun x => x.2.1) h
  have h3 : a.thresholds = b.thresholds := congrArg (fun x => x.2.2.1) h
  have h4 : a.setupCode = b.setupCode := congrArg (fun x => x.2.2.2) h
  cases hm : matchStep st.text with
  | none => simp [stepAccum, hm, sideAccum, h1, h2, h3, h4]
  | some dm => simp [stepAccum, hm, sideAccum, h1, h2, h3, h4]

theorem sideAccum_foldl (steps : List RStep) :
    ∀ a b : GenAccum, sideAccum a = sideAccum b →
      sideAccum (steps.foldl stepAccum a) = sideAccum (steps.foldl stepAccum b) := by
  induction steps with
  | nil => intro a b h; simpa using h
  | cons st rest ih =>
    intro a b h
    simp only [List.foldl_cons]
    exact ih _ _ (sideAccum_stepAccum a b st h)

theorem sideAccum_stepAccum_unmatched (a : GenAccum) (st : RStep)
    (h : matchStep st.text = none) : sideAccum (stepAccum a st) = sideAccum a := by
  simp [stepAccum, h, sideAccum]

theorem get?_split {α : Type} (l : List α) :
    ∀ (j : Nat) (x : α), l.get? j = some x →
      l = l.take j ++ x :: l.drop (j + 1) ∧ l.eraseIdx j = l.take j ++ l.drop (j + 1) := by
  induction l with
  | nil => intro j x h; simp at h
  | cons y ys ih =>
    intro j x h
    cases j with
    | zero =>
      simp at h
      subst h
      simp [List.eraseIdx]
    | succ jj =>
      simp only [List.get?_cons_succ] at h
      obtain ⟨he, her⟩ := ih jj x h
      constructor
      · conv_lhs => rw [show y :: ys = y :: (ys.take jj ++ x :: ys.drop (jj + 1)) from by rw [← he]]
        simp
      · simp only [List.eraseIdx]
        rw [her]
        simp

/-- A string whose characters avoid `'\n'` splits into a single line. -/
theorem splitLinesL_no_newline (l : List Char) (h : ∀ c ∈ l, c ≠ '\n') :
    splitLinesL l = [l] := by
  induction l with
  | nil => simp [splitLinesL]
  | cons c cs ih =>
    have hc : c ≠ '\n' := h c (by simp)
    have ihh := ih (fun d hd => h d (by simp [hd]))
    simp [splitLinesL, ihh, hc]

theorem indent8_no_newline (s : String) (h : ∀ c ∈ s.data, c ≠ '\n') :
    indent8 s = "        " ++ s := by
  unfold indent8 splitLines
  rw [splitLinesL_no_newline s.data h]
  show joinLines ["        " ++ String.mk s.data] = _
  have : String.mk s.data = s := by cases s; rfl
  rw [this]
  rfl

/-- C5: a step matching no registry pattern never fails generation: its
code block is exactly the human-readable placeholder comment (at the step's
position), it leaves imports, metrics, thresholds and setup untouched
(erasing the step changes none of them), and the comment text naming the
keyword and original step text appears verbatim in the generated script. -/
theorem generateSingleScript_unmatched_step (f : GFeature) (s : Resolved) (j : Nat)
    (st : RStep) (hj : s.steps.get? j = some st)
    (hun : matchStep st.text = none)
    (hnl : ∀ c ∈ ("// [" ++ st.keyword ++ "] " ++ st.text ++
            " — Step no reconocido (sin definición)").data, c ≠ '\n') :
    ((accumulateSteps s.steps).imports = (accumulateSteps (s.steps.eraseIdx j)).imports ∧
     (accumulateSteps s.steps).metrics = (accumulateSteps (s.steps.eraseIdx j)).metrics ∧
     (accumulateSteps s.steps).thresholds = (accumulateSteps (s.steps.eraseIdx j)).thresholds ∧
     (accumulateSteps s.steps).setupCode = (accumulateSteps (s.steps.eraseIdx j)).setupCode) ∧
    (accumulateSteps s.steps).codeBlocks.get? j
      = some ⟨st.keyword, st.text, unmatchedComment st⟩ ∧
    ∀ ts : String,
      occursStr ("// [" ++ st.keyword ++ "] " ++ st.text ++
          " — Step no reconocido (sin definición)") (generateSingleScript f s ts) := by
  obtain ⟨hsplit, herase⟩ := get?_split s.steps j st hj
  have hside : sideAccum (accumulateSteps s.steps)
      = sideAccum (accumulateSteps (s.steps.eraseIdx j)) := by
    rw [herase]
    conv_lhs => rw [show accumulateSteps s.steps
        = (s.steps.take j ++ st :: s.steps.drop (j + 1)).foldl stepAccum emptyAccum from by
          rw [← hsplit]; rfl]
    rw [List.foldl_append, List.foldl_cons]
    rw [show accumulateSteps (List.take j s.steps ++ List.drop (j + 1) s.steps)
          = (List.take j s.steps ++ List.drop (j + 1) s.steps).foldl stepAccum emptyAccum
        from rfl, List.foldl_append]
    exact sideAccum_foldl _ _ _ (sideAccum_stepAccum_unmatched _ st hun)
  refine ⟨?_, ?_, ?_⟩
  · exact ⟨congrArg (fun x => x.1) hside, congrArg (fun x => x.2.1) hside,
      congrArg (fun x => x.2.2.1) hside, congrArg (fun x => x.2.2.2) hside⟩
  · rw [accumulateSteps, accum_codeBlocks]
    show (List.map blockOf s.steps).get? j = _
    rw [List.get?_map, hj]
    simp [blockOf, hun]
  · intro ts
    set cmt := "// [" ++ st.keyword ++ "] " ++ st.text ++
      " — Step no reconocido (sin definición)" with hcmt
    have hblockmem : (⟨st.keyword, st.text, unmatchedComment st⟩ : Block)
        ∈ (accumulateSteps s.steps).codeBlocks := by
      rw [accumulateSteps, accum_codeBlocks]
      refine List.mem_map.mpr ⟨st, List.get?_mem hj, ?_⟩
      simp [blockOf, hun]
    have hcode : unmatchedComment st = "    " ++ cmt := by
      apply strExt
      simp [unmatchedComment, hcmt, strData_append, List.append_assoc]
    have hnl4 : ∀ c ∈ ("    " ++ cmt).data, c ≠ '\n' := by
      intro c hc
      rw [strData_append] at hc
      rcases List.mem_append.mp hc with h4 | hcm
      · have hsp : c = ' ' := by simpa using h4
        rw [hsp]
        decide
      · exact hnl c hcm
    have hpartmem : indent8 (unmatchedComment st) ∈ scriptParts f s ts := by
      simp only [scriptParts, scriptRest]
      refine List.mem_cons_of_mem _ (List.mem_cons_of_mem _ (List.mem_cons_of_mem _
        (List.mem_cons_of_mem _ ?_)))
      refine List.mem_append_left _ (List.mem_append_right _ ?_)
      refine List.mem_flatMap.mpr ⟨⟨st.keyword, st.text, unmatchedComment st⟩, hblockmem, ?_⟩
      simp [blockParts]
    have hocc : occursStr cmt (indent8 (unmatchedComment st)) := by
      rw [hcode, indent8_no_newline _ hnl4]
      show occurs cmt.data _
      rw [strData_append, strData_append]
      exact occurs_append_keep_left _ _ _ (occurs_append_keep_left _ _ _ ⟨[], [], by simp⟩)
    exact occursStr_of_mem_joinLines _ _ _ hpartmem hocc

/-- Witness for C5 at a concrete unmatched step. -/
theorem generateSingleScript_unmatched_step_witness :
    (accumulateSteps [⟨"Y", "paso desconocido", none, none⟩]).codeBlocks.get? 0
      = some ⟨"Y", "paso desconocido",
          unmatchedComment ⟨"Y", "paso desconocido", none, none⟩⟩ :=
  (generateSingleScript_unmatched_step ⟨"Feat"⟩
    ⟨"Esc", [], "scenario", none, [], [⟨"Y", "paso desconocido", none, none⟩]⟩ 0
    ⟨"Y", "paso desconocido", none, none⟩ rfl rfl (by decide)).2.1

/-! ## C6 — import synthesis -/

theorem mem_addSet (l : List String) (x y : String) : y ∈ addSet l x ↔ y ∈ l ∨ y = x := by
  unfold addSet
  by_cases h : x ∈ l
  · rw [if_pos h]
    constructor
    · intro hy
      exact Or.inl hy
    · rintro (hy | rfl)
      · exact hy
      · exact h
  · rw [if_neg h]
    simp

theorem addSet_nodup (l : List String) (x : String) (h : l.Nodup) : (addSet l x).Nodup := by
  unfold addSet
  by_cases hm : x ∈ l
  · rwa [if_pos hm]
  · rw [if_neg hm]
    simp [List.nodup_append, h, hm]

theorem imports_fold_mem (imps : List String) :
    ∀ (init : List String) (y : String),
      y ∈ imps.foldl addSet init ↔ y ∈ init ∨ y ∈ imps := by
  induction imps with
  | nil => intro init y; simp
  | cons i rest ih =>
    intro init y
    rw [List.foldl_cons, ih, mem_addSet]
    simp only [List.mem_cons]
    tauto

theorem imports_fold_nodup (imps : List String) :
    ∀ init : List String, init.Nodup → (imps.foldl addSet init).Nodup := by
  induction imps with
  | nil => intro init h; simpa using h
  | cons i rest ih =>
    intro init h
    rw [List.foldl_cons]
    exact ih _ (addSet_nodup _ _ h)

theorem accum_imports_mem (steps : List RStep) :
    ∀ (init : GenAccum) (y : String),
      y ∈ (steps.foldl stepAccum init).imports
        ↔ y ∈ init.imports ∨
          ∃ st ∈ steps, ∃ d m, matchStep st.text = some (d, m) ∧ y ∈ d.imports := by
  induction steps with
  | nil => intro init y; simp
  | cons st rest ih =>
    intro init y
    rw [List.foldl_cons, ih]
    cases h : matchStep st.text with
    | none =>
      have himp : (stepAccum init st).imports = init.imports := by
        simp [stepAccum, h]
      rw [himp]
      constructor
      · rintro (hy | ⟨st2, hst2, d, m, hm, hy⟩)
        · exact Or.inl hy
        · exact Or.inr ⟨st2, List.mem_cons_of_mem _ hst2, d, m, hm, hy⟩
      · rintro (hy | ⟨st2, hst2, d, m, hm, hy⟩)
        · exact Or.inl hy
        · rcases List.mem_cons.mp hst2 with rfl | hst2
          · rw [h] at hm
            exact absurd hm (by simp)
          · exact Or.inr ⟨st2, hst2, d, m, hm, hy⟩
    | some dm =>
      have himp : (stepAccum init st).imports = dm.1.imports.foldl addSet init.imports := by
        simp [stepAccum, h]
      rw [himp, imports_fold_mem]
      constructor
      · rintro ((hy | hy) | ⟨st2, hst2, d, m, hm, hy⟩)
        · exact Or.inl hy
        · exact Or.inr ⟨st, List.mem_cons_self st rest, dm.1, dm.2, by simpa using h, hy⟩
        · exact Or.inr ⟨st2, List.mem_cons_of_mem _ hst2, d, m, hm, hy⟩
      · rintro (hy | ⟨st2, hst2, d, m, hm, hy⟩)
        · exact Or.inl (Or.inl hy)
        · rcases List.mem_cons.mp hst2 with rfl | hst2
          · rw [h] at hm
            have hdm : dm = (d, m) := Option.some.inj hm
            subst hdm
            exact Or.inl (Or.inr hy)
          · exact Or.inr ⟨st2, hst2, d, m, hm, hy⟩

theorem accum_imports_nodup (steps : List RStep) :
    ∀ init : GenAccum, init.imports.Nodup → (steps.foldl stepAccum init).imports.Nodup := by
  induction steps with
  | nil => intro init h; simpa using h
  | cons st rest ih =>
    intro init h
    rw [List.foldl_cons]
    apply ih
    cases hm : matchStep st.text with
    | none => simpa [stepAccum, hm] using h
    | some dm =>
      have : (stepAccum init st).imports = dm.1.imports.foldl addSet init.imports := by
        simp [stepAccum, hm]
      rw [this]
      exact imports_fold_nodup _ _ h

theorem classify_fold_mem (imps : List String) :
    ∀ (g : LibImports) (y : String),
      (y ∈ (imps.foldl clsStep g).auth
        ↔ y ∈ g.auth ∨ (y ∈ imps ∧ y ∈ AUTH_EXPORTS)) ∧
      (y ∈ (imps.foldl clsStep g).endpoints
        ↔ y ∈ g.endpoints ∨ (y ∈ imps ∧ y ∉ AUTH_EXPORTS ∧ y ∈ ENDPOINT_EXPORTS)) ∧
      (y ∈ (imps.foldl clsStep g).helpers
        ↔ y ∈ g.helpers ∨ (y ∈ imps ∧ y ∉ AUTH_EXPORTS ∧ y ∉ ENDPOINT_EXPORTS ∧
            y ∈ HELPER_EXPORTS)) ∧
      (y ∈ (imps.foldl clsStep g).config
        ↔ y ∈ g.config ∨ (y ∈ imps ∧ y ∉ AUTH_EXPORTS ∧ y ∉ ENDPOINT_EXPORTS ∧
            y ∉ HELPER_EXPORTS ∧ y ∈ CONFIG_EXPORTS)) := by
  induction imps with
  | nil => intro g y; simp
  | cons i rest ih =>
    intro g y
    rw [List.foldl_cons]
    by_cases hA : i ∈ AUTH_EXPORTS
    · have hg : clsStep g i = { g with auth := g.auth ++ [i] } := by
        simp [clsStep, hA]
      rw [hg]
      obtain ⟨e1, e2, e3, e4⟩ := ih { g with auth := g.auth ++ [i] } y
      rw [e1, e2, e3, e4]
      simp only [List.mem_append, List.mem_singleton, List.mem_cons, List.not_mem_nil, or_false]
      constructor
      · constructor
        · rintro ((hy | rfl) | ⟨hm, hy⟩)
          · exact Or.inl hy
          · exact Or.inr ⟨Or.inl rfl, hA⟩
          · exact Or.inr ⟨Or.inr hm, hy⟩
        · rintro (hy | ⟨(rfl | hm), hy⟩)
          · exact Or.inl (Or.inl hy)
          · exact Or.inl (Or.inr rfl)
          · exact Or.inr ⟨hm, hy⟩
      refine ⟨?_, ?_, ?_⟩ <;>
        · constructor
          · rintro (hy | ⟨hm, hy⟩)
            · exact Or.inl hy
            · exact Or.inr ⟨Or.inr hm, hy⟩
          · rintro (hy | ⟨(rfl | hm), hy⟩)
            · exact Or.inl hy
            · exact absurd hA hy.1
            · exact Or.inr ⟨hm, hy⟩
    · by_cases hE : i ∈ ENDPOINT_EXPORTS
      · have hg : clsStep g i = { g with endpoints := g.endpoints ++ [i] } := by
          simp [clsStep, hA, hE]
        rw [hg]
        obtain ⟨e1, e2, e3, e4⟩ := ih { g with endpoints := g.endpoints ++ [i] } y
        rw [e1, e2, e3, e4]
        simp only [List.mem_append, List.mem_singleton, List.mem_cons, List.not_mem_nil, or_false]
        refine ⟨?_, ?_, ?_, ?_⟩
        · constructor
          · rintro (hy | ⟨hm, hy⟩)
            · exact Or.inl hy
            · exact Or.inr ⟨Or.inr hm, hy⟩
          · rintro (hy | ⟨(rfl | hm), hy⟩)
            · exact Or.inl hy
            · exact absurd hy hA
            · exact Or.inr ⟨hm, hy⟩
        · constructor
          · rintro ((hy | rfl) | ⟨hm, hy⟩)
            · exact Or.inl hy
            · exact Or.inr ⟨Or.inl rfl, hA, hE⟩
            · exact Or.inr ⟨Or.inr hm, hy⟩
          · rintro (hy | ⟨(rfl | hm), hy⟩)
            · exact Or.inl (Or.inl hy)
            · exact Or.inl (Or.inr rfl)
            · exact Or.inr ⟨hm, hy⟩
        · constructor
          · rintro (hy | ⟨hm, hy⟩)
            · exact Or.inl hy
            · exact Or.inr ⟨Or.inr hm, hy⟩
          · rintro (hy | ⟨(rfl | hm), hy⟩)
            · exact Or.inl hy
            · exact absurd hE hy.2.1
            · exact Or.inr ⟨hm, hy⟩
        · constructor
          · rintro (hy | ⟨hm, hy⟩)
            · exact Or.inl hy
            · exact Or.inr ⟨Or.inr hm, hy⟩
          · rintro (hy | ⟨(rfl | hm), hy⟩)
            · exact Or.inl hy
            · exact absurd hE hy.2.1
            · exact Or.inr ⟨hm, hy⟩
      · by_cases hH : i ∈ HELPER_EXPORTS
        · have hg : clsStep g i = { g with helpers := g.helpers ++ [i] } := by
            simp [clsStep, hA, hE, hH]
          rw [hg]
          obtain ⟨e1, e2, e3, e4⟩ := ih { g with helpers := g.helpers ++ [i] } y
          rw [e1, e2, e3, e4]
          simp only [List.mem_append, List.mem_singleton, List.mem_cons, List.not_mem_nil, or_false]
          refine ⟨?_, ?_, ?_, ?_⟩
          · constructor
            · rintro (hy | ⟨hm, hy⟩)
              · exact Or.inl hy
              · exact Or.inr ⟨Or.inr hm, hy⟩
            · rintro (hy | ⟨(rfl | hm), hy⟩)
              · exact Or.inl hy
              · exact absurd hy hA
              · exact Or.inr ⟨hm, hy⟩
          · constructor
            · rintro (hy | ⟨hm, hy⟩)
              · exact Or.inl hy
              · exact Or.inr ⟨Or.inr hm, hy⟩
            · rintro (hy | ⟨(rfl | hm), hy⟩)
              · exact Or.inl hy
              · exact absurd hy.2 hE
              · exact Or.inr ⟨hm, hy⟩
          · constructor
            · rintro ((hy | rfl) | ⟨hm, hy⟩)
              · exact Or.inl hy
              · exact Or.inr ⟨Or.inl rfl, hA, hE, hH⟩
              · exact Or.inr ⟨Or.inr hm, hy⟩
            · rintro (hy | ⟨(rfl | hm), hy⟩)
              · exact Or.inl (Or.inl hy)
              · exact Or.inl (Or.inr rfl)
              · exact Or.inr ⟨hm, hy⟩
          · constructor
            · rintro (hy | ⟨hm, hy⟩)
              · exact Or.inl hy
              · exact Or.inr ⟨Or.inr hm, hy⟩
            · rintro (hy | ⟨(rfl | hm), hy⟩)
              · exact Or.inl hy
              · exact absurd hH hy.2.2.1
              · exact Or.inr ⟨hm, hy⟩
        · by_cases hC : i ∈ CONFIG_EXPORTS
          · have hg : clsStep g i = { g with config := g.config ++ [i] } := by
              simp [clsStep, hA, hE, hH, hC]
            rw [hg]
            obtain ⟨e1, e2, e3, e4⟩ := ih { g with config := g.config ++ [i] } y
            rw [e1, e2, e3, e4]
            simp only [List.mem_append, List.mem_singleton, List.mem_cons, List.not_mem_nil, or_false]
            refine ⟨?_, ?_, ?_, ?_⟩
            · constructor
              · rintro (hy | ⟨hm, hy⟩)
                · exact Or.inl hy
                · exact Or.inr ⟨Or.inr hm, hy⟩
              · rintro (hy | ⟨(rfl | hm), hy⟩)
                · exact Or.inl hy
                · exact absurd hy hA
                · exact Or.inr ⟨hm, hy⟩
            · constructor
              · rintro (hy | ⟨hm, hy⟩)
                · exact Or.inl hy
                · exact Or.inr ⟨Or.inr hm, hy⟩
              · rintro (hy | ⟨(rfl | hm), hy⟩)
                · exact Or.inl hy
                · exact absurd hy.2 hE
                · exact Or.inr ⟨hm, hy⟩
            · constructor
              · rintro (hy | ⟨hm, hy⟩)
                · exact Or.inl hy
                · exact Or.inr ⟨Or.inr hm, hy⟩
              · rintro (hy | ⟨(rfl | hm), hy⟩)
                · exact Or.inl hy
                · exact absurd hy.2.2 hH
                · exact Or.inr ⟨hm, hy⟩
            · constructor
              · rintro ((hy | rfl) | ⟨hm, hy⟩)
                · exact Or.inl hy
                · exact Or.inr ⟨Or.inl rfl, hA, hE, hH, hC⟩
                · exact Or.inr ⟨Or.inr hm, hy⟩
              · rintro (hy | ⟨(rfl | hm), hy⟩)
                · exact Or.inl (Or.inl hy)
                · exact Or.inl (Or.inr rfl)
                · exact Or.inr ⟨hm, hy⟩
          · have hg : clsStep g i = g := by
              simp [clsStep, hA, hE, hH, hC]
            rw [hg]
            obtain ⟨e1, e2, e3, e4⟩ := ih g y
            rw [e1, e2, e3, e4]
            simp only [List.mem_cons]
            refine ⟨?_, ?_, ?_, ?_⟩
            · constructor
              · rintro (hy | ⟨hm, hy⟩)
                · exact Or.inl hy
                · exact Or.inr ⟨Or.inr hm, hy⟩
              · rintro (hy | ⟨(rfl | hm), hy⟩)
                · exact Or.inl hy
                · exact absurd hy hA
                · exact Or.inr ⟨hm, hy⟩
            · constructor
              · rintro (hy | ⟨hm, hy⟩)
                · exact Or.inl hy
                · exact Or.inr ⟨Or.inr hm, hy⟩
              · rintro (hy | ⟨(rfl | hm), hy⟩)
                · exact Or.inl hy
                · exact absurd hy.2 hE
                · exact Or.inr ⟨hm, hy⟩
            · constructor
              · rintro (hy | ⟨hm, hy⟩)
                · exact Or.inl hy
                · exact Or.inr ⟨Or.inr hm, hy⟩
              · rintro (hy | ⟨(rfl | hm), hy⟩)
                · exact Or.inl hy
                · exact absurd hy.2.2 hH
                · exact Or.inr ⟨hm, hy⟩
            · constructor
              · rintro (hy | ⟨hm, hy⟩)
                · exact Or.inl hy
                · exact Or.inr ⟨Or.inr hm, hy⟩
              · rintro (hy | ⟨(rfl | hm), hy⟩)
                · exact Or.inl hy
                · exact absurd hy.2.2.2 hC
                · exact Or.inr ⟨hm, hy⟩

theorem classify_fold_eq (imps : List String) :
    ∀ g : LibImports,
      imps.foldl clsStep g
        = ⟨g.auth ++ imps.filter (fun y => y ∈ AUTH_EXPORTS),
           g.endpoints ++ imps.filter (fun y => y ∉ AUTH_EXPORTS ∧ y ∈ ENDPOINT_EXPORTS),
           g.helpers ++ imps.filter (fun y =>
             y ∉ AUTH_EXPORTS ∧ y ∉ ENDPOINT_EXPORTS ∧ y ∈ HELPER_EXPORTS),
           g.config ++ imps.filter (fun y =>
             y ∉ AUTH_EXPORTS ∧ y ∉ ENDPOINT_EXPORTS ∧ y ∉ HELPER_EXPORTS ∧
             y ∈ CONFIG_EXPORTS)⟩ := by
  induction imps with
  | nil => intro g; simp
  | cons i rest ih =>
    intro g
    rw [List.foldl_cons]
    by_cases hA : i ∈ AUTH_EXPORTS
    · rw [show clsStep g i = { g with auth := g.auth ++ [i] } from by simp [clsStep, hA]]
      rw [ih]
      simp [List.filter_cons, hA]
    · by_cases hE : i ∈ ENDPOINT_EXPORTS
      · rw [show clsStep g i = { g with endpoints := g.endpoints ++ [i] } from by
          simp [clsStep, hA, hE]]
        rw [ih]
        simp [List.filter_cons, hA, hE]
      · by_cases hH : i ∈ HELPER_EXPORTS
        · rw [show clsStep g i = { g with helpers := g.helpers ++ [i] } from by
            simp [clsStep, hA, hE, hH]]
          rw [ih]
          simp [List.filter_cons, hA, hE, hH]
        · by_cases hC : i ∈ CONFIG_EXPORTS
          · rw [show clsStep g i = { g with config := g.config ++ [i] } from by
              simp [clsStep, hA, hE, hH, hC]]
            rw [ih]
            simp [List.filter_cons, hA, hE, hH, hC]
          · rw [show clsStep g i = g from by simp [clsStep, hA, hE, hH, hC]]
            rw [ih]
            simp [List.filter_cons, hA, hE, hH, hC]

theorem libImportGroups_eq (imports : List String) :
    libImportGroups imports
      = { classifyImports imports with
          config := addSet (classifyImports imports).config "BASE_URL",
          helpers := addSet (classifyImports imports).helpers "getTimestamp" } := by
  unfold libImportGroups addSet
  by_cases h1 : "BASE_URL" ∈ (classifyImports imports).config <;>
    by_cases h2 : "getTimestamp" ∈ (classifyImports imports).helpers <;>
    simp [h1, h2]

def ALL_LIB_EXPORTS : List String :=
  AUTH_EXPORTS ++ ENDPOINT_EXPORTS ++ HELPER_EXPORTS ++ CONFIG_EXPORTS

/-- Every import any registry definition requires is one of the
collaborator-library exports. -/
theorem registry_imports_exported :
    ∀ d ∈ STEP_DEFINITIONS, ∀ y ∈ d.imports, y ∈ ALL_LIB_EXPORTS := by
  decide

theorem findFirstMatch_mem_defs :
    ∀ (defs : List StepDef) (text : String) (d : StepDef) (m : List String),
      findFirstMatch defs text = some (d, m) → d ∈ defs := by
  intro defs
  induction defs with
  | nil => intro text d m h; simp [findFirstMatch] at h
  | cons d0 rest ih =>
    intro text d m h
    cases hp : patMatch d0.pattern text with
    | some m0 =>
      rw [show findFirstMatch (d0 :: rest) text = some (d0, m0) from by
        simp [findFirstMatch, hp]] at h
      have h2 : (d0, m0) = (d, m) := Option.some.inj h
      cases h2
      exact List.mem_cons_self _ _
    | none =>
      rw [show findFirstMatch (d0 :: rest) text = findFirstMatch rest text from by
        simp [findFirstMatch, hp]] at h
      exact List.mem_cons_of_mem _ (ih text d m h)

/-- C6 counterexample: a scenario whose single matched step requires no
imports still gets `BASE_URL` in its config import group, although no
registry definition lists `BASE_URL` as a required import. -/
theorem libImportGroups_always_base_url_cex :
    "BASE_URL" ∈ (libImportGroups (accumulateSteps
        [⟨"Dado", "el sistema está disponible", none, none⟩]).imports).config ∧
    ∀ d ∈ STEP_DEFINITIONS, "BASE_URL" ∉ d.imports := by
  refine ⟨by decide, by decide⟩

/-- C6 (amended): the generated collaborator-library import groups are
duplicate-free, and a symbol appears in them iff either some matched step
definition of the scenario listed it in its required imports, or it is one
of the two unconditionally added symbols `BASE_URL` (config group) and
`getTimestamp` (helpers group). -/
theorem libImportGroups_required_amended (s : Resolved) :
    ((libImportGroups (accumulateSteps s.steps).imports).auth.Nodup ∧
     (libImportGroups (accumulateSteps s.steps).imports).endpoints.Nodup ∧
     (libImportGroups (accumulateSteps s.steps).imports).helpers.Nodup ∧
     (libImportGroups (accumulateSteps s.steps).imports).config.Nodup) ∧
    (∀ sym : String,
      (sym ∈ (libImportGroups (accumulateSteps s.steps).imports).config ∨
       sym ∈ (libImportGroups (accumulateSteps s.steps).imports).auth ∨
       sym ∈ (libImportGroups (accumulateSteps s.steps).imports).endpoints ∨
       sym ∈ (libImportGroups (accumulateSteps s.steps).imports).helpers)
      ↔ ((∃ st ∈ s.steps, ∃ d m, matchStep st.text = some (d, m) ∧ sym ∈ d.imports) ∨
         sym = "BASE_URL" ∨ sym = "getTimestamp")) := by
  have hLnodup : (accumulateSteps s.steps).imports.Nodup :=
    accum_imports_nodup s.steps emptyAccum (by simp [emptyAccum])
  have hLmem : ∀ y, y ∈ (accumulateSteps s.steps).imports
      ↔ ∃ st ∈ s.steps, ∃ d m, matchStep st.text = some (d, m) ∧ y ∈ d.imports := by
    intro y
    rw [accumulateSteps, accum_imports_mem]
    simp [emptyAccum]
  have hcls := classify_fold_eq (accumulateSteps s.steps).imports ⟨[], [], [], []⟩
  have hgrp := libImportGroups_eq (accumulateSteps s.steps).imports
  have hclsu : classifyImports (accumulateSteps s.steps).imports
      = ⟨(accumulateSteps s.steps).imports.filter (fun y => y ∈ AUTH_EXPORTS),
         (accumulateSteps s.steps).imports.filter (fun y =>
           y ∉ AUTH_EXPORTS ∧ y ∈ ENDPOINT_EXPORTS),
         (accumulateSteps s.steps).imports.filter (fun y =>
           y ∉ AUTH_EXPORTS ∧ y ∉ ENDPOINT_EXPORTS ∧ y ∈ HELPER_EXPORTS),
         (accumulateSteps s.steps).imports.filter (fun y =>
           y ∉ AUTH_EXPORTS ∧ y ∉ ENDPOINT_EXPORTS ∧ y ∉ HELPER_EXPORTS ∧
           y ∈ CONFIG_EXPORTS)⟩ := by
    rw [classifyImports, hcls]
    simp
  constructor
  · rw [hgrp, hclsu]
    refine ⟨hLnodup.filter _, hLnodup.filter _, addSet_nodup _ _ (hLnodup.filter _),
      addSet_nodup _ _ (hLnodup.filter _)⟩
  · intro sym
    rw [hgrp, hclsu]
    simp only [mem_addSet, List.mem_filter, decide_eq_true_eq]
    constructor
    · rintro (((⟨hy, _⟩ | rfl)) | ⟨hy, _⟩ | ⟨hy, _⟩ | (⟨hy, _⟩ | rfl))
      · exact Or.inl ((hLmem sym).mp hy)
      · exact Or.inr (Or.inl rfl)
      · exact Or.inl ((hLmem sym).mp hy)
      · exact Or.inl ((hLmem sym).mp hy)
      · exact Or.inl ((hLmem sym).mp hy)
      · exact Or.inr (Or.inr rfl)
    · rintro (hex | rfl | rfl)
      · have hyL : sym ∈ (accumulateSteps s.steps).imports := (hLmem sym).mpr hex
        have hall : sym ∈ ALL_LIB_EXPORTS := by
          obtain ⟨st, _, d, m, hm, hy⟩ := hex
          exact registry_imports_exported d (findFirstMatch_mem_defs _ _ _ _ hm) sym hy
        by_cases hA : sym ∈ AUTH_EXPORTS
        · exact Or.inr (Or.inl ⟨hyL, hA⟩)
        · by_cases hE : sym ∈ ENDPOINT_EXPORTS
          · exact Or.inr (Or.inr (Or.inl ⟨hyL, hA, hE⟩))
          · by_cases hH : sym ∈ HELPER_EXPORTS
            · exact Or.inr (Or.inr (Or.inr (Or.inl ⟨hyL, hA, hE, hH⟩)))
            · have hC : sym ∈ CONFIG_EXPORTS := by
                unfold ALL_LIB_EXPORTS at hall
                rcases List.mem_append.mp hall with h1 | h2
                · rcases List.mem_append.mp h1 with h3 | h4
                  · rcases List.mem_append.mp h3 with h5 | h6
                    · exact absurd h5 hA
                    · exact absurd h6 hE
                  · exact absurd h4 hH
                · exact h2
              exact Or.inl (Or.inl ⟨hyL, hA, hE, hH, hC⟩)
      · exact Or.inl (Or.inr rfl)
      · exact Or.inr (Or.inr (Or.inr (Or.inr rfl)))

/-! ## C2 — scenario-template expansion -/

theorem jsLookup_buildParamsGo_not_mem (hs : List String) :
    ∀ (vals : List String) (acc : List (String × String)) (c : String),
      c ∉ hs → jsLookup (buildParamsGo hs vals acc) c = jsLookup acc c := by
  induction hs with
  | nil => intro vals acc c _; rfl
  | cons h hs2 ih =>
    intro vals acc c hc
    have hch : c ≠ h := fun he => hc (he ▸ List.mem_cons_self h hs2)
    have hc2 : c ∉ hs2 := fun he => hc (List.mem_cons_of_mem _ he)
    show jsLookup (buildParamsGo hs2 vals.tail (objSet acc h (vals.headD ""))) c = _
    rw [ih _ _ _ hc2, jsLookup_objSet, if_neg hch]

theorem getD_succ_tail {α : Type} (vals : List α) (n : Nat) (d : α) :
    vals.getD (n + 1) d = vals.tail.getD n d := by
  cases vals <;> simp

theorem jsLookup_buildParamsGo (hs : List String) :
    ∀ (vals : List String) (acc : List (String × String)) (c : String),
      hs.Nodup → c ∈ hs →
      jsLookup (buildParamsGo hs vals acc) c = some (vals.getD (List.indexOf c hs) "") := by
  induction hs with
  | nil => intro vals acc c _ hc; simp at hc
  | cons h hs2 ih =>
    intro vals acc c hnd hc
    have hnd2 : hs2.Nodup := (List.nodup_cons.mp hnd).2
    have hh2 : h ∉ hs2 := (List.nodup_cons.mp hnd).1
    show jsLookup (buildParamsGo hs2 vals.tail (objSet acc h (vals.headD ""))) c = _
    by_cases hch : c = h
    · subst hch
      rw [jsLookup_buildParamsGo_not_mem hs2 _ _ _ hh2, jsLookup_objSet, if_pos rfl]
      rw [List.indexOf_cons_self]
      cases vals <;> simp
    · have hc2 : c ∈ hs2 := by
        rcases List.mem_cons.mp hc with he | he
        · exact absurd he hch
        · exact he
      rw [ih _ _ _ hnd2 hc2]
      rw [List.indexOf_cons_ne _ (fun he => hch he.symm), getD_succ_tail]

theorem expandRows_length (s : GScenario) (hs : List String) (en : String)
    (et : List String) :
    ∀ (i : Nat) (rows : List (List String)),
      (expandRows s hs en et i rows).length = rows.length := by
  intro i rows
  induction rows generalizing i with
  | nil => rfl
  | cons row rest ih => simp [expandRows, ih]

theorem expandRows_get? (s : GScenario) (hs : List String) (en : String)
    (et : List String) :
    ∀ (rows : List (List String)) (i j : Nat) (row : List String),
      rows.get? j = some row →
      (expandRows s hs en et i rows).get? j = some (resolveRow s hs en et (i + j) row) := by
  intro rows
  induction rows with
  | nil => intro i j row h; simp at h
  | cons r0 rest ih =>
    intro i j row h
    cases j with
    | zero =>
      simp at h
      subst h
      simp [expandRows]
    | succ jj =>
      simp only [List.get?_cons_succ] at h
      show (expandRows s hs en et (i + 1) rest).get? jj = _
      rw [ih (i + 1) jj row h]
      congr 2
      omega

theorem expandExamples_length (s : GScenario) (ex : GExamples)
    (hwf : ex.tableBody ≠ [] → ex.tableHeader ≠ none) :
    (expandExamples s ex).length = ex.tableBody.length := by
  unfold expandExamples
  cases hh : ex.tableHeader with
  | none =>
    cases hb : ex.tableBody with
    | nil => simp
    | cons r rs => exact absurd hh (hwf (by simp [hb]))
  | some hs =>
    show (if ex.tableBody = [] then []
          else expandRows s hs (examplesDisplayName ex) ex.tags 0 ex.tableBody).length = _
    by_cases hb : ex.tableBody = []
    · simp [hb]
    · rw [if_neg hb]
      exact expandRows_length s hs _ _ 0 ex.tableBody

theorem resolveOutline_get? (s : GScenario) :
    ∀ exs : List GExamples,
      (∀ ex ∈ exs, ex.tableBody ≠ [] → ex.tableHeader ≠ none) →
      ∀ k ex, exs.get? k = some ex →
        ∀ i row, ex.tableBody.get? i = some row →
          ∀ hs, ex.tableHeader = some hs →
            (exs.flatMap (expandExamples s)).get?
                (((exs.take k).map (fun e2 => e2.tableBody.length)).sum + i)
              = some (resolveRow s hs (examplesDisplayName ex) ex.tags i row) := by
  intro exs
  induction exs with
  | nil =>
    intro _ k ex hk
    simp at hk
  | cons ex0 rest ih =>
    intro hwf k ex hk i row hrow hs hh
    have hwf0 : ex0.tableBody ≠ [] → ex0.tableHeader ≠ none := hwf ex0 (by simp)
    have hwfr : ∀ ex2 ∈ rest, ex2.tableBody ≠ [] → ex2.tableHeader ≠ none :=
      fun ex2 h2 => hwf ex2 (List.mem_cons_of_mem _ h2)
    cases k with
    | zero =>
      simp only [List.get?_cons_zero] at hk
      have hk2 : ex0 = ex := Option.some.inj hk
      subst hk2
      have hi : i < ex0.tableBody.length := by
        rcases List.get?_eq_some.mp hrow with ⟨h, _⟩
        exact h
      have hbody : ex0.tableBody ≠ [] := by
        intro he
        rw [he] at hi
        simp at hi
      have hex : expandExamples s ex0
          = expandRows s hs (examplesDisplayName ex0) ex0.tags 0 ex0.tableBody := by
        unfold expandExamples
        rw [hh]
        simp [hbody]
      show ((expandExamples s ex0 ++ rest.flatMap (expandExamples s)).get?
        (((List.take 0 (ex0 :: rest)).map (fun e2 => e2.tableBody.length)).sum + i)) = _
      simp only [List.take_zero, List.map_nil, List.sum_nil, Nat.zero_add]
      rw [List.get?_append (by rw [hex, expandRows_length]; exact hi)]
      rw [hex, expandRows_get? s hs _ _ ex0.tableBody 0 i row hrow]
      simp
    | succ kk =>
      simp only [List.get?_cons_succ] at hk
      have hlen : (expandExamples s ex0).length = ex0.tableBody.length :=
        expandExamples_length s ex0 hwf0
      show ((expandExamples s ex0 ++ rest.flatMap (expandExamples s)).get?
        (((List.take (kk + 1) (ex0 :: rest)).map (fun e2 => e2.tableBody.length)).sum + i)) = _
      rw [List.take_succ_cons, List.map_cons, List.sum_cons]
      rw [List.get?_append_right (by omega)]
      have harith : ex0.tableBody.length +
            ((List.take kk rest).map (fun e2 => e2.tableBody.length)).sum + i
            - (expandExamples s ex0).length
          = ((List.take kk rest).map (fun e2 => e2.tableBody.length)).sum + i := by
      -- length cancels
        omega
      rw [show ex0.tableBody.length +
            ((List.take kk rest).map (fun e2 => e2.tableBody.length)).sum + i
          = (ex0.tableBody.length +
              ((List.take kk rest).map (fun e2 => e2.tableBody.length)).sum) + i from rfl]
      rw [show (ex0.tableBody.length +
              ((List.take kk rest).map (fun e2 => e2.tableBody.length)).sum) + i
            - (expandExamples s ex0).length
          = ((List.take kk rest).map (fun e2 => e2.tableBody.length)).sum + i from by omega]
      exact ih hwfr kk ex hk i row hrow hs hh

/-- C2 counterexample: the resolved-scenario name separator is not the em
dash `—` the claim states: the source template (parser.js line 146) holds
the mojibake three-character sequence `â€”`, so the produced name differs
from the claimed `<name> [Default — Row 1]`. -/
theorem resolveScenarioOutline_name_cex :
    ((resolveScenarioOutline ⟨"X", [], [], [⟨"", [], some ["a"], [["v"]]⟩]⟩).get? 0).map
        Resolved.name
      = some ("X [Default " ++ mojibakeDash ++ " Row 1]") ∧
    ("X [Default " ++ mojibakeDash ++ " Row 1]" : String) ≠ "X [Default — Row 1]" := by
  refine ⟨by decide, by decide⟩

/-- C2 (amended): a scenario template with Examples tables expands to
exactly (sum of body-row counts) resolved scenarios, in table order then
row order; the scenario derived from row i (1-based) of a table is named
`<scenario-name> [<table-name-or-"Default"> â€” Row i]` — with the
source's literal three-character mojibake sequence `â€”` (U+00E2 U+20AC
U+201D) where the claim wrote an em dash — and its parameter map assigns to
every header column that row's cell value, missing cells mapping to the
empty string. -/
theorem resolveScenarioOutline_expansion_amended (s : GScenario)
    (hwf : ∀ ex ∈ s.examples, ex.tableBody ≠ [] → ex.tableHeader ≠ none)
    (hnd : ∀ ex ∈ s.examples, ∀ hs, ex.tableHeader = some hs → hs.Nodup) :
    (resolveScenarioOutline s).length
      = (s.examples.map (fun ex => ex.tableBody.length)).sum ∧
    (∀ k ex, s.examples.get? k = some ex →
      ∀ i row, ex.tableBody.get? i = some row →
        ∀ hs, ex.tableHeader = some hs →
          ∃ r, (resolveScenarioOutline s).get?
              (((s.examples.take k).map (fun e2 => e2.tableBody.length)).sum + i) = some r ∧
            r.name = s.name ++ " [" ++ examplesDisplayName ex ++ " " ++ mojibakeDash
              ++ " Row " ++ toString (i + 1) ++ "]" ∧
            ∀ c ∈ hs, jsLookup r.parameters c = some (row.getD (List.indexOf c hs) "")) := by
  constructor
  · rw [resolveScenarioOutline]
    rw [List.length_flatMap]
    congr 1
    exact List.map_congr_left (fun ex hex => expandExamples_length s ex (hwf ex hex))
  · intro k ex hk i row hrow hs hh
    refine ⟨resolveRow s hs (examplesDisplayName ex) ex.tags i row,
      resolveOutline_get? s s.examples hwf k ex hk i row hrow hs hh, rfl, ?_⟩
    intro c hc
    have hndhs : hs.Nodup := hnd ex (List.get?_mem hk) hs hh
    show jsLookup (buildParamsGo hs row []) c = _
    rw [jsLookup_buildParamsGo hs row [] c hndhs hc]

/-- Witness for C2 at a concrete two-table template. -/
theorem resolveScenarioOutline_expansion_witness :
    (resolveScenarioOutline ⟨"Esc", [], [],
        [⟨"Load", [], some ["vus", "duration"], [["5", "30s"], ["10", "2m"]]⟩,
         ⟨"", [], some ["q"], [["x"]]⟩]⟩).length = 3 :=
  (resolveScenarioOutline_expansion_amended
    ⟨"Esc", [], [],
      [⟨"Load", [], some ["vus", "duration"], [["5", "30s"], ["10", "2m"]]⟩,
       ⟨"", [], some ["q"], [["x"]]⟩]⟩
    (by decide) (by decide)).1

/-! ## C10 — case-insensitive matching -/

/-- The (lowercase, uppercase) letter pairs of the registry's alphabet. -/
def casePairs : List (Char × Char) :=
  [('a', 'A'), ('b', 'B'), ('c', 'C'), ('d', 'D'), ('e', 'E'), ('f', 'F'), ('g', 'G'), ('h', 'H'), ('i', 'I'), ('j', 'J'), ('k', 'K'), ('l', 'L'), ('m', 'M'), ('n', 'N'), ('o', 'O'), ('p', 'P'), ('q', 'Q'), ('r', 'R'), ('s', 'S'), ('t', 'T'), ('u', 'U'), ('v', 'V'), ('w', 'W'), ('x', 'X'), ('y', 'Y'), ('z', 'Z'), ('á', 'Á'), ('é', 'É'), ('í', 'Í'), ('ó', 'Ó'), ('ú', 'Ú'), ('ñ', 'Ñ'), ('ü', 'Ü')]

/-- `d` is `c` with only its letter case changed (over `casePairs`). -/
def CaseEquivChar (c d : Char) : Prop :=
  c = d ∨ (c, d) ∈ casePairs ∨ (d, c) ∈ casePairs

instance caseEquivCharDec (c d : Char) : Decidable (CaseEquivChar c d) := by
  unfold CaseEquivChar
  infer_instance

theorem ce_props (c d : Char) (h : CaseEquivChar c d) :
    foldChar c = foldChar d ∧ c.isDigit = d.isDigit ∧ (c != '"') = (d != '"') := by
  have key : ∀ p ∈ casePairs,
      foldChar p.1 = foldChar p.2 ∧ p.1.isDigit = p.2.isDigit ∧
        (p.1 != '"') = (p.2 != '"') := by decide
  rcases h with rfl | hp | hp
  · exact ⟨rfl, rfl, rfl⟩
  · exact key (c, d) hp
  · obtain ⟨h1, h2, h3⟩ := key (d, c) hp
    exact ⟨h1.symm, h2.symm, h3.symm⟩

theorem stripCI_congr (pat : List Char) :
    ∀ l₁ l₂, List.Forall₂ CaseEquivChar l₁ l₂ →
      (stripCI pat l₁ = none ∧ stripCI pat l₂ = none) ∨
      (∃ r₁ r₂, stripCI pat l₁ = some r₁ ∧ stripCI pat l₂ = some r₂ ∧
        List.Forall₂ CaseEquivChar r₁ r₂) := by
  induction pat with
  | nil =>
    intro l₁ l₂ h
    exact Or.inr ⟨l₁, l₂, rfl, rfl, h⟩
  | cons p ps ih =>
    intro l₁ l₂ h
    cases h with
    | nil => exact Or.inl ⟨rfl, rfl⟩
    | cons hc hcs =>
      rename_i c₁ c₂ cs₁ cs₂
      have hf : foldChar c₁ = foldChar c₂ := (ce_props _ _ hc).1
      by_cases hp : foldChar p = foldChar c₁
      · have hp2 : foldChar p = foldChar c₂ := hp.trans hf
        have e1 : stripCI (p :: ps) (c₁ :: cs₁) = stripCI ps cs₁ := by
          simp [stripCI, hp]
        have e2 : stripCI (p :: ps) (c₂ :: cs₂) = stripCI ps cs₂ := by
          simp [stripCI, hp2]
        rw [e1, e2]
        exact ih cs₁ cs₂ hcs
      · have hp2 : ¬ foldChar p = foldChar c₂ := fun he => hp (he.trans hf.symm)
        have e1 : stripCI (p :: ps) (c₁ :: cs₁) = none := by
          simp [stripCI, hp]
        have e2 : stripCI (p :: ps) (c₂ :: cs₂) = none := by
          simp [stripCI, hp2]
        exact Or.inl ⟨e1, e2⟩

theorem takeRun_congr (P : Char → Bool)
    (hP : ∀ c d, CaseEquivChar c d → P c = P d) :
    ∀ l₁ l₂, List.Forall₂ CaseEquivChar l₁ l₂ →
      ((takeRun P l₁).1 = [] ↔ (takeRun P l₂).1 = []) ∧
      List.Forall₂ CaseEquivChar (takeRun P l₁).2 (takeRun P l₂).2 := by
  intro l₁ l₂ h
  induction h with
  | nil => exact ⟨Iff.rfl, List.Forall₂.nil⟩
  | cons hc hcs ih =>
    rename_i c₁ c₂ cs₁ cs₂
    have hpc : P c₁ = P c₂ := hP _ _ hc
    by_cases hb : P c₁ = true
    · have hb2 : P c₂ = true := hpc ▸ hb
      have e1 : takeRun P (c₁ :: cs₁) = (c₁ :: (takeRun P cs₁).1, (takeRun P cs₁).2) := by
        simp [takeRun, hb]
      have e2 : takeRun P (c₂ :: cs₂) = (c₂ :: (takeRun P cs₂).1, (takeRun P cs₂).2) := by
        simp [takeRun, hb2]
      rw [e1, e2]
      exact ⟨by simp, ih.2⟩
    · have hb2 : ¬ P c₂ = true := fun he => hb (hpc ▸ he)
      have e1 : takeRun P (c₁ :: cs₁) = ([], c₁ :: cs₁) := by
        simp [takeRun, hb]
      have e2 : takeRun P (c₂ :: cs₂) = ([], c₂ :: cs₂) := by
        simp [takeRun, hb2]
      rw [e1, e2]
      exact ⟨Iff.rfl, List.Forall₂.cons hc hcs⟩

theorem isSome_map_opt {α β : Type} (f : α → β) (o : Option α) :
    (o.map f).isSome = o.isSome := by
  cases o <;> rfl

theorem matchToks_congr (ps : List PatTok) :
    ∀ l₁ l₂, List.Forall₂ CaseEquivChar l₁ l₂ →
      (matchToks ps l₁).isSome = (matchToks ps l₂).isSome := by
  induction ps with
  | nil =>
    intro l₁ l₂ h
    cases h with
    | nil => rfl
    | cons hc hcs => rfl
  | cons tok ps ih =>
    intro l₁ l₂ h
    cases tok with
    | lit s =>
      rcases stripCI_congr s.data l₁ l₂ h with ⟨e1, e2⟩ | ⟨r₁, r₂, e1, e2, hr⟩
      · show (match stripCI s.data l₁ with
            | some rest => matchToks ps rest
            | none => none).isSome = (match stripCI s.data l₂ with
            | some rest => matchToks ps rest
            | none => none).isSome
        rw [e1, e2]
      · show (match stripCI s.data l₁ with
            | some rest => matchToks ps rest
            | none => none).isSome = (match stripCI s.data l₂ with
            | some rest => matchToks ps rest
            | none => none).isSome
        rw [e1, e2]
        exact ih r₁ r₂ hr
    | digits =>
      have hP : ∀ c d, CaseEquivChar c d → c.isDigit = d.isDigit :=
        fun c d hc => (ce_props c d hc).2.1
      obtain ⟨hiff, hrest⟩ := takeRun_congr Char.isDigit hP l₁ l₂ h
      have e1 : matchToks (PatTok.digits :: ps) l₁
          = (if (takeRun Char.isDigit l₁).1 = [] then none
             else (matchToks ps (takeRun Char.isDigit l₁).2).map
               (fun caps => String.mk (takeRun Char.isDigit l₁).1 :: caps)) := rfl
      have e2 : matchToks (PatTok.digits :: ps) l₂
          = (if (takeRun Char.isDigit l₂).1 = [] then none
             else (matchToks ps (takeRun Char.isDigit l₂).2).map
               (fun caps => String.mk (takeRun Char.isDigit l₂).1 :: caps)) := rfl
      rw [e1, e2]
      by_cases hz : (takeRun Char.isDigit l₁).1 = []
      · rw [if_pos hz, if_pos (hiff.mp hz)]
      · rw [if_neg hz, if_neg (fun he => hz (hiff.mpr he))]
        rw [isSome_map_opt, isSome_map_opt]
        exact ih _ _ hrest
    | nonQuote =>
      have hP : ∀ c d, CaseEquivChar c d → (c != '"') = (d != '"') :=
        fun c d hc => (ce_props c d hc).2.2
      obtain ⟨hiff, hrest⟩ := takeRun_congr (fun c => c != '"') hP l₁ l₂ h
      have e1 : matchToks (PatTok.nonQuote :: ps) l₁
          = (if (takeRun (fun c => c != '"') l₁).1 = [] then none
             else (matchToks ps (takeRun (fun c => c != '"') l₁).2).map
               (fun caps => String.mk (takeRun (fun c => c != '"') l₁).1 :: caps)) := rfl
      have e2 : matchToks (PatTok.nonQuote :: ps) l₂
          = (if (takeRun (fun c => c != '"') l₂).1 = [] then none
             else (matchToks ps (takeRun (fun c => c != '"') l₂).2).map
               (fun caps => String.mk (takeRun (fun c => c != '"') l₂).1 :: caps)) := rfl
      rw [e1, e2]
      by_cases hz : (takeRun (fun c => c != '"') l₁).1 = []
      · rw [if_pos hz, if_pos (hiff.mp hz)]
      · rw [if_neg hz, if_neg (fun he => hz (hiff.mpr he))]
        rw [isSome_map_opt, isSome_map_opt]
        exact ih _ _ hrest

theorem patMatch_congr (p : List PatTok) (t₁ t₂ : String)
    (h : List.Forall₂ CaseEquivChar t₁.data t₂.data) :
    (patMatch p t₁).isSome = (patMatch p t₂).isSome := by
  unfold patMatch
  rw [isSome_map_opt, isSome_map_opt]
  exact matchToks_congr p _ _ h

/-- C10: every registry pattern carries the case-insensitive flag, so
changing only the letter case of a step text changes neither which step
definition `matchStep` selects nor whether any definition matches. -/
theorem matchStep_case_insensitive (t₁ t₂ : String)
    (h : List.Forall₂ CaseEquivChar t₁.data t₂.data) :
    ((matchStep t₁).map Prod.fst = (matchStep t₂).map Prod.fst) ∧
    ((matchStep t₁).isSome ↔ (matchStep t₂).isSome) := by
  have key : ∀ defs : List StepDef,
      (findFirstMatch defs t₁).map Prod.fst = (findFirstMatch defs t₂).map Prod.fst := by
    intro defs
    induction defs with
    | nil => rfl
    | cons d rest ihd =>
      have hsome := patMatch_congr d.pattern t₁ t₂ h
      cases h1 : patMatch d.pattern t₁ with
      | some m₁ =>
        rw [h1] at hsome
        cases h2 : patMatch d.pattern t₂ with
        | none =>
          rw [h2] at hsome
          simp at hsome
        | some m₂ =>
          rw [show findFirstMatch (d :: rest) t₁ = some (d, m₁) from by
            simp [findFirstMatch, h1]]
          rw [show findFirstMatch (d :: rest) t₂ = some (d, m₂) from by
            simp [findFirstMatch, h2]]
          rfl
      | none =>
        rw [h1] at hsome
        cases h2 : patMatch d.pattern t₂ with
        | some m₂ =>
          rw [h2] at hsome
          simp at hsome
        | none =>
          rw [show findFirstMatch (d :: rest) t₁ = findFirstMatch rest t₁ from by
            simp [findFirstMatch, h1]]
          rw [show findFirstMatch (d :: rest) t₂ = findFirstMatch rest t₂ from by
            simp [findFirstMatch, h2]]
          exact ihd
  refine ⟨key STEP_DEFINITIONS, ?_⟩
  have hk := key STEP_DEFINITIONS
  have hs : (matchStep t₁).isSome = (matchStep t₂).isSome := by
    rw [← isSome_map_opt Prod.fst (matchStep t₁), ← isSome_map_opt Prod.fst (matchStep t₂)]
    exact congrArg Option.isSome hk
  rw [show matchStep t₁ = findFirstMatch STEP_DEFINITIONS t₁ from rfl] at hs
  rw [show matchStep t₂ = findFirstMatch STEP_DEFINITIONS t₂ from rfl] at hs
  show (findFirstMatch STEP_DEFINITIONS t₁).isSome ↔ (findFirstMatch STEP_DEFINITIONS t₂).isSome
  rw [hs]

/-- Witness for C10: the uppercased system-available step selects the same
definition as the lowercase one. -/
theorem matchStep_case_insensitive_witness :
    ((matchStep "el sistema está disponible").map Prod.fst
      = (matchStep "EL SISTEMA ESTÁ DISPONIBLE").map Prod.fst) ∧
    ((matchStep "el sistema está disponible").isSome
      ↔ (matchStep "EL SISTEMA ESTÁ DISPONIBLE").isSome) :=
  matchStep_case_insensitive "el sistema está disponible" "EL SISTEMA ESTÁ DISPONIBLE"
    (by repeat first
      | exact List.Forall₂.nil
      | refine List.Forall₂.cons (by decide) ?_)

/-! ## C3 — placeholder substitution

The step text of a template is decomposed into literal runs and
`<name>` placeholders; substitution against a row replaces known
placeholders and leaves unknown ones. `substAll` is the literal global
replacement `new RegExp("<"+key+">", "g")` performs for keys without regex
metacharacters and values without `$` patterns, which the hypotheses of the
amended claim delimit. -/

/-- One lexical piece of a step text: a literal run or a `<name>` placeholder. -/
inductive Tok where
  | lit (s : List Char)
  | ph (n : List Char)
deriving DecidableEq

/-- The text a token list denotes. -/
def renderToks : List Tok → List Char
  | [] => []
  | Tok.lit s :: ts => s ++ renderToks ts
  | Tok.ph n :: ts => ('<' :: (n ++ ['>'])) ++ renderToks ts

/-- No `<` or `>` characters. -/
def bracketFree (l : List Char) : Prop :=
  ∀ c ∈ l, c ≠ '<' ∧ c ≠ '>'

instance bracketFreeDec (l : List Char) : Decidable (bracketFree l) :=
  inferInstanceAs (Decidable (∀ c ∈ l, c ≠ '<' ∧ c ≠ '>'))

def GoodTok : Tok → Prop
  | Tok.lit s => bracketFree s
  | Tok.ph n => bracketFree n

instance goodTokDec (t : Tok) : Decidable (GoodTok t) :=
  match t with
  | Tok.lit s => inferInstanceAs (Decidable (bracketFree s))
  | Tok.ph n => inferInstanceAs (Decidable (bracketFree n))

def GoodToks (T : List Tok) : Prop :=
  ∀ t ∈ T, GoodTok t

instance goodToksDec (T : List Tok) : Decidable (GoodToks T) :=
  inferInstanceAs (Decidable (∀ t ∈ T, GoodTok t))

/-- Substituting one key at the token level. -/
def substTok (k v : List Char) (T : List Tok) : List Tok :=
  T.map (fun t =>
    match t with
    | Tok.lit s => Tok.lit s
    | Tok.ph n => if n = k then Tok.lit v else Tok.ph n)

/-- All keys of a parameter list at the token level, in order. -/
def substToks (params : List (String × String)) (T : List Tok) : List Tok :=
  params.foldl (fun T2 kv => substTok kv.1.data kv.2.data T2) T

theorem substAll_eq_some (k0 : Char) (kr rep : List Char) (c : Char) (cs r : List Char)
    (h : dropPre (k0 :: kr) (c :: cs) = some r) :
    substAll k0 kr rep (c :: cs) = rep ++ substAll k0 kr rep r := by
  rw [substAll]
  split
  · rename_i r2 h2
    rw [h] at h2
    rw [Option.some.inj h2]
  · rename_i h2
    rw [h] at h2
    exact absurd h2 (by simp)

theorem substAll_eq_none (k0 : Char) (kr rep : List Char) (c : Char) (cs : List Char)
    (h : dropPre (k0 :: kr) (c :: cs) = none) :
    substAll k0 kr rep (c :: cs) = c :: substAll k0 kr rep cs := by
  rw [substAll]
  split
  · rename_i r2 h2
    rw [h] at h2
    exact absurd h2 (by simp)
  · rfl

theorem dropPre_exact (pat : List Char) : ∀ l, dropPre pat (pat ++ l) = some l := by
  induction pat with
  | nil => intro l; rfl
  | cons p ps ih =>
    intro l
    show (if p = p then dropPre ps (ps ++ l) else none) = some l
    rw [if_pos rfl, ih]

theorem gtFree_of_bracketFree (l : List Char) (h : bracketFree l) : ∀ c ∈ l, c ≠ '>' :=
  fun c hc => (h c hc).2

theorem ltFree_of_bracketFree (l : List Char) (h : bracketFree l) : ∀ c ∈ l, c ≠ '<' :=
  fun c hc => (h c hc).1

theorem dropPre_key_mismatch :
    ∀ (k n r : List Char), (∀ c ∈ k, c ≠ '>') → (∀ c ∈ n, c ≠ '>') → k ≠ n →
      dropPre (k ++ ['>']) (n ++ ['>'] ++ r) = none := by
  intro k
  induction k with
  | nil =>
    intro n r _ hn hne
    cases n with
    | nil => exact absurd rfl hne
    | cons c n2 =>
      show (if '>' = c then dropPre [] (n2 ++ ['>'] ++ r) else none) = none
      rw [if_neg (fun he => hn c (by simp) he.symm)]
  | cons a k2 ih =>
    intro n r hk hn hne
    cases n with
    | nil =>
      show (if a = '>' then dropPre (k2 ++ ['>']) r else none) = none
      rw [if_neg (hk a (by simp))]
    | cons c n2 =>
      show (if a = c then dropPre (k2 ++ ['>']) (n2 ++ ['>'] ++ r) else none) = none
      by_cases hac : a = c
      · rw [if_pos hac]
        exact ih n2 r (fun d hd => hk d (by simp [hd])) (fun d hd => hn d (by simp [hd]))
          (fun he => hne (by rw [hac, he]))
      · rw [if_neg hac]

theorem substAll_skip_lit (kr rep : List Char) :
    ∀ (s l : List Char), (∀ c ∈ s, c ≠ '<') →
      substAll '<' kr rep (s ++ l) = s ++ substAll '<' kr rep l := by
  intro s
  induction s with
  | nil => intro l _; rfl
  | cons c s2 ih =>
    intro l hs
    have hc : c ≠ '<' := hs c (by simp)
    rw [List.cons_append]
    have hd : dropPre ('<' :: kr) (c :: (s2 ++ l)) = none := by
      show (if '<' = c then dropPre kr (s2 ++ l) else none) = none
      rw [if_neg (fun he => hc he.symm)]
    rw [substAll_eq_none _ _ _ _ _ hd, ih l (fun d hd2 => hs d (by simp [hd2]))]
    simp

theorem substAll_render (k v : List Char) (hk : bracketFree k) :
    ∀ T : List Tok, GoodToks T →
      substAll '<' (k ++ ['>']) v (renderToks T) = renderToks (substTok k v T) := by
  intro T
  induction T with
  | nil =>
    intro _
    show substAll '<' (k ++ ['>']) v [] = renderToks (substTok k v [])
    rw [substAll]
    rfl
  | cons t ts ih =>
    intro hG
    have hGt : GoodTok t := hG t (by simp)
    have hGts : GoodToks ts := fun u hu => hG u (by simp [hu])
    cases t with
    | lit s =>
      show substAll '<' (k ++ ['>']) v (s ++ renderToks ts) = s ++ renderToks (substTok k v ts)
      rw [substAll_skip_lit _ _ s _ (ltFree_of_bracketFree s hGt), ih hGts]
    | ph n =>
      show substAll '<' (k ++ ['>']) v (('<' :: (n ++ ['>'])) ++ renderToks ts) = _
      by_cases hkn : n = k
      · subst hkn
        have hd : dropPre ('<' :: (n ++ ['>'])) (('<' :: (n ++ ['>'])) ++ renderToks ts)
            = some (renderToks ts) := dropPre_exact _ _
        rw [show ('<' :: (n ++ ['>'])) ++ renderToks ts
              = '<' :: ((n ++ ['>']) ++ renderToks ts) from rfl] at hd ⊢
        rw [substAll_eq_some _ _ _ _ _ _ hd, ih hGts]
        have hsub : substTok n v (Tok.ph n :: ts) = Tok.lit v :: substTok n v ts := by
          simp [substTok]
        rw [hsub]
        rfl
      · have hd : dropPre ('<' :: (k ++ ['>'])) ('<' :: ((n ++ ['>']) ++ renderToks ts))
            = none := by
          show (if '<' = '<' then dropPre (k ++ ['>']) ((n ++ ['>']) ++ renderToks ts)
                else none) = none
          rw [if_pos rfl]
          rw [show (n ++ ['>']) ++ renderToks ts = n ++ ['>'] ++ renderToks ts from rfl]
          exact dropPre_key_mismatch k n (renderToks ts)
            (gtFree_of_bracketFree k hk) (gtFree_of_bracketFree n hGt)
            (fun he => hkn he.symm)
        rw [show ('<' :: (n ++ ['>'])) ++ renderToks ts
              = '<' :: ((n ++ ['>']) ++ renderToks ts) from rfl]
        rw [substAll_eq_none _ _ _ _ _ hd]
        rw [show (n ++ ['>']) ++ renderToks ts = n ++ ('>' :: renderToks ts) from by simp]
        rw [substAll_skip_lit _ _ n _ (ltFree_of_bracketFree n hGt)]
        have hgt : dropPre ('<' :: (k ++ ['>'])) ('>' :: renderToks ts) = none := by
          show (if '<' = '>' then dropPre (k ++ ['>']) (renderToks ts) else none) = none
          rw [if_neg (by decide)]
        rw [substAll_eq_none _ _ _ _ _ hgt, ih hGts]
        have hsub : substTok k v (Tok.ph n :: ts) = Tok.ph n :: substTok k v ts := by
          simp [substTok, hkn]
        rw [hsub]
        show '<' :: (n ++ '>' :: renderToks (substTok k v ts))
            = ('<' :: (n ++ ['>'])) ++ renderToks (substTok k v ts)
        simp

theorem goodToks_substTok (k v : List Char) (hv : bracketFree v) (T : List Tok)
    (hG : GoodToks T) : GoodToks (substTok k v T) := by
  intro t ht
  rcases List.mem_map.mp ht with ⟨u, hu, heq⟩
  have hGu : GoodTok u := hG u hu
  cases u with
  | lit s =>
    rw [← heq]
    exact hGu
  | ph n =>
    by_cases hnk : n = k
    · rw [← heq]
      simp only [hnk, if_pos rfl]
      exact hv
    · rw [← heq]
      simp only [if_neg hnk]
      exact hGu

theorem substToks_render (params : List (String × String)) :
    ∀ T : List Tok, GoodToks T →
      (∀ kv ∈ params, bracketFree kv.1.data) →
      (∀ kv ∈ params, bracketFree kv.2.data) →
      params.foldl
          (fun l kv => substAll '<' (kv.1.data ++ ['>']) kv.2.data l) (renderToks T)
        = renderToks (substToks params T) ∧ GoodToks (substToks params T) := by
  induction params with
  | nil => intro T hG _ _; exact ⟨rfl, hG⟩
  | cons kv rest ih =>
    intro T hG hkeys hvals
    have hk : bracketFree kv.1.data := hkeys kv (by simp)
    have hv : bracketFree kv.2.data := hvals kv (by simp)
    have hG2 : GoodToks (substTok kv.1.data kv.2.data T) := goodToks_substTok _ _ hv T hG
    have step := substAll_render kv.1.data kv.2.data hk T hG
    show rest.foldl (fun l kv => substAll '<' (kv.1.data ++ ['>']) kv.2.data l)
        (substAll '<' (kv.1.data ++ ['>']) kv.2.data (renderToks T)) = _ ∧ _
    rw [step]
    exact ih (substTok kv.1.data kv.2.data T) hG2
      (fun kv2 h2 => hkeys kv2 (by simp [h2]))
      (fun kv2 h2 => hvals kv2 (by simp [h2]))

theorem ph_mem_substTok (k v m : List Char) (T : List Tok) :
    Tok.ph m ∈ substTok k v T → Tok.ph m ∈ T ∧ m ≠ k := by
  intro h
  rcases List.mem_map.mp h with ⟨u, hu, heq⟩
  cases u with
  | lit s => simp at heq
  | ph n =>
    have heq2 : (if n = k then Tok.lit v else Tok.ph n) = Tok.ph m := heq
    by_cases hnk : n = k
    · rw [if_pos hnk] at heq2
      simp at heq2
    · rw [if_neg hnk] at heq2
      have hnm : n = m := Tok.ph.inj heq2
      subst hnm
      exact ⟨hu, hnk⟩

theorem ph_mem_substToks (params : List (String × String)) :
    ∀ (T : List Tok) (m : List Char),
      Tok.ph m ∈ substToks params T →
      Tok.ph m ∈ T ∧ ∀ kv ∈ params, m ≠ kv.1.data := by
  induction params with
  | nil =>
    intro T m h
    exact ⟨h, by simp⟩
  | cons kv rest ih =>
    intro T m h
    obtain ⟨h1, h2⟩ := ih (substTok kv.1.data kv.2.data T) m h
    obtain ⟨h3, h4⟩ := ph_mem_substTok kv.1.data kv.2.data m T h1
    refine ⟨h3, ?_⟩
    intro kv2 hkv2
    rcases List.mem_cons.mp hkv2 with rfl | hkv2
    · exact h4
    · exact h2 kv2 hkv2

theorem ph_survives_substToks (params : List (String × String)) :
    ∀ (T : List Tok) (m : List Char),
      Tok.ph m ∈ T → (∀ kv ∈ params, m ≠ kv.1.data) →
      Tok.ph m ∈ substToks params T := by
  induction params with
  | nil => intro T m h _; exact h
  | cons kv rest ih =>
    intro T m h hne
    apply ih
    · refine List.mem_map.mpr ⟨Tok.ph m, h, ?_⟩
      show (if m = kv.1.data then Tok.lit kv.2.data else Tok.ph m) = Tok.ph m
      rw [if_neg (hne kv (by simp))]
    · intro kv2 h2
      exact hne kv2 (by simp [h2])

theorem occurs_append_free (g : Char) (pr : List Char) :
    ∀ (s rest : List Char), (∀ c ∈ s, c ≠ g) →
      occurs (g :: pr) (s ++ rest) → occurs (g :: pr) rest := by
  intro s
  induction s with
  | nil => intro rest _ hocc; exact hocc
  | cons c s2 ih =>
    intro rest hs hocc
    obtain ⟨u, w, he⟩ := hocc
    cases u with
    | nil =>
      rw [List.nil_append, List.cons_append] at he
      rw [List.cons_append] at he
      injection he with h1 _
      exact absurd h1 (hs c (by simp))
    | cons d u2 =>
      rw [List.cons_append, List.cons_append, List.cons_append] at he
      injection he with _ h2
      exact ih rest (fun e hd => hs e (by simp [hd])) ⟨u2, w, h2⟩

theorem key_eq_of_render_eq :
    ∀ (n m r w : List Char), (∀ c ∈ n, c ≠ '>') → (∀ c ∈ m, c ≠ '>') →
      n ++ '>' :: r = m ++ '>' :: w → n = m := by
  intro n
  induction n with
  | nil =>
    intro m r w _ hm he
    cases m with
    | nil => rfl
    | cons c m2 =>
      rw [List.nil_append, List.cons_append] at he
      injection he with h1 _
      exact absurd h1.symm (hm c (by simp))
  | cons a n2 ih =>
    intro m r w hn hm he
    cases m with
    | nil =>
      rw [List.cons_append, List.nil_append] at he
      injection he with h1 _
      exact absurd h1 (hn a (by simp))
    | cons c m2 =>
      rw [List.cons_append, List.cons_append] at he
      injection he with h1 h2
      rw [h1, ih m2 r w (fun d hd => hn d (by simp [hd]))
        (fun d hd => hm d (by simp [hd])) h2]

theorem occ_renderToks (m : List Char) (hm : bracketFree m) :
    ∀ T : List Tok, GoodToks T →
      (occurs ('<' :: (m ++ ['>'])) (renderToks T) ↔ Tok.ph m ∈ T) := by
  intro T
  induction T with
  | nil =>
    intro _
    constructor
    · rintro ⟨s, t, he⟩
      have hlen := congrArg List.length he
      simp [renderToks] at hlen
      omega
    · intro h; simp at h
  | cons t ts ih =>
    intro hG
    have hGt := hG t (by simp)
    have hGts : GoodToks ts := fun u hu => hG u (by simp [hu])
    cases t with
    | lit s =>
      constructor
      · intro hocc
        have hocc2 : occurs ('<' :: (m ++ ['>'])) (renderToks ts) :=
          occurs_append_free '<' (m ++ ['>']) s (renderToks ts)
            (ltFree_of_bracketFree s hGt) hocc
        exact List.mem_cons_of_mem _ ((ih hGts).mp hocc2)
      · intro hmem
        rcases List.mem_cons.mp hmem with he | hmem2
        · simp at he
        · obtain ⟨u, w, he⟩ := (ih hGts).mpr hmem2
          refine ⟨s ++ u, w, ?_⟩
          show s ++ renderToks ts = (s ++ u) ++ ('<' :: (m ++ ['>'])) ++ w
          rw [he]
          simp
    | ph n =>
      constructor
      · intro hocc
        obtain ⟨u, w, he⟩ := hocc
        cases u with
        | nil =>
          rw [List.nil_append] at he
          have he2 : '<' :: ((n ++ ['>']) ++ renderToks ts)
              = '<' :: ((m ++ ['>']) ++ w) := he
          injection he2 with _ h2
          have h3 : n ++ '>' :: renderToks ts = m ++ '>' :: w := by
            simpa [List.append_assoc] using h2
          have hnm : n = m := key_eq_of_render_eq n m (renderToks ts) w
            (gtFree_of_bracketFree n hGt) (gtFree_of_bracketFree m hm) h3
          exact List.mem_cons.mpr (Or.inl (by rw [hnm]))
        | cons d u2 =>
          have he2 : '<' :: ((n ++ ['>']) ++ renderToks ts)
              = d :: ((u2 ++ ('<' :: (m ++ ['>']))) ++ w) := he
          injection he2 with _ h2
          have hocc3 : occurs ('<' :: (m ++ ['>'])) (n ++ ('>' :: renderToks ts)) := by
            exact ⟨u2, w, by simpa [List.append_assoc] using h2⟩
          have hocc4 := occurs_append_free '<' (m ++ ['>']) n _
            (ltFree_of_bracketFree n hGt) hocc3
          have hocc5 : occurs ('<' :: (m ++ ['>'])) (renderToks ts) := by
            refine occurs_append_free '<' (m ++ ['>']) ['>'] _ (by decide) ?_
            simpa using hocc4
          exact List.mem_cons_of_mem _ ((ih hGts).mp hocc5)
      · intro hmem
        rcases List.mem_cons.mp hmem with he | hmem2
        · have hmn : m = n := Tok.ph.inj he
          refine ⟨[], renderToks ts, ?_⟩
          rw [hmn]
          rfl
        · obtain ⟨u, w, he⟩ := (ih hGts).mpr hmem2
          refine ⟨('<' :: (n ++ ['>'])) ++ u, w, ?_⟩
          show ('<' :: (n ++ ['>'])) ++ renderToks ts
              = (('<' :: (n ++ ['>'])) ++ u) ++ ('<' :: (m ++ ['>'])) ++ w
          rw [he]
          simp

theorem resolveStepText_data (params : List (String × String)) :
    ∀ text : String, (resolveStepText params text).data
      = params.foldl (fun l kv => substAll '<' (kv.1.data ++ ['>']) kv.2.data l) text.data := by
  induction params with
  | nil => intro text; rfl
  | cons kv rest ih =>
    intro text
    show (resolveStepText rest
        (String.mk (substAll '<' (kv.1.data ++ ['>']) kv.2.data text.data))).data = _
    rw [ih]
    rfl

/-- Characters whose occurrence in a JS `RegExp` source is self-denoting:
letters, digits, underscore, space and hyphen carry no regex
metacharacter meaning outside a character class. -/
def regexPlainChar (c : Char) : Prop :=
  c.isAlpha = true ∨ c.isDigit = true ∨ c = '_' ∨ c = ' ' ∨ c = '-'

instance regexPlainCharDec (c : Char) : Decidable (regexPlainChar c) := by
  unfold regexPlainChar
  infer_instance

/-- A column name over which `new RegExp` builds a pattern matching exactly
the literal `<key>` text. -/
def regexPlainKey (l : List Char) : Prop :=
  ∀ c ∈ l, regexPlainChar c

instance regexPlainKeyDec (l : List Char) : Decidable (regexPlainKey l) :=
  inferInstanceAs (Decidable (∀ c ∈ l, regexPlainChar c))

theorem plain_no_brackets (c : Char) (h : regexPlainChar c) : c ≠ '<' ∧ c ≠ '>' := by
  constructor <;> intro he <;> rw [he] at h <;> exact absurd h (by decide)

theorem bracketFree_of_plainKey (l : List Char) (h : regexPlainKey l) : bracketFree l :=
  fun c hc => plain_no_brackets c (h c hc)

/-- C3 (amended): over step texts that decompose into well-bracketed literal
and `<name>` placeholder tokens, with column names made of letters, digits,
underscores, spaces and hyphens — on which the constructed `RegExp` pattern
`<key>` denotes the literal text `<key>` — and row values containing none of
`<`, `>`, `$` — so `String.replace` inserts them verbatim with no
`$`-pattern expansion and they cannot respell a placeholder —
`resolveStepText` leaves no `<column>` substring for any known column, and
for any bracket-free unknown name the placeholder `<name>` occurs in the
output exactly when it occurred in the input. The claimed property fails
without the restriction on row values: a value may itself spell a
placeholder of a known column, which the left-to-right single pass never
revisits. -/
theorem resolveStepText_substitution_amended
    (params : List (String × String)) (text : String) (T : List Tok)
    (hT : text.data = renderToks T) (hG : GoodToks T)
    (hkeys : ∀ kv ∈ params, regexPlainKey kv.1.data)
    (hvals : ∀ kv ∈ params, ∀ c ∈ kv.2.data, c ≠ '<' ∧ c ≠ '>' ∧ c ≠ '$') :
    (∀ kv ∈ params,
      ¬ occursStr (String.mk ('<' :: (kv.1.data ++ ['>'])))
          (resolveStepText params text)) ∧
    (∀ m : List Char, bracketFree m → (∀ kv ∈ params, m ≠ kv.1.data) →
      (occursStr (String.mk ('<' :: (m ++ ['>']))) (resolveStepText params text) ↔
        occursStr (String.mk ('<' :: (m ++ ['>']))) text)) := by
  have hkeysB : ∀ kv ∈ params, bracketFree kv.1.data :=
    fun kv hkv => bracketFree_of_plainKey _ (hkeys kv hkv)
  have hvalsB : ∀ kv ∈ params, bracketFree kv.2.data :=
    fun kv hkv c hc => ⟨(hvals kv hkv c hc).1, (hvals kv hkv c hc).2.1⟩
  have hpair := substToks_render params T hG hkeysB hvalsB
  have hdata : (resolveStepText params text).data = renderToks (substToks params T) := by
    rw [resolveStepText_data, hT]
    exact hpair.1
  have hG2 : GoodToks (substToks params T) := hpair.2
  constructor
  · intro kv hkv hocc
    have hocc2 : occurs ('<' :: (kv.1.data ++ ['>'])) (renderToks (substToks params T)) := by
      rw [← hdata]
      exact hocc
    have hmem := (occ_renderToks kv.1.data (hkeysB kv hkv) _ hG2).mp hocc2
    exact (ph_mem_substToks params T kv.1.data hmem).2 kv hkv rfl
  · intro m hm hne
    have h1 : occursStr (String.mk ('<' :: (m ++ ['>']))) (resolveStepText params text)
        ↔ Tok.ph m ∈ substToks params T := by
      show occurs ('<' :: (m ++ ['>'])) (resolveStepText params text).data ↔ _
      rw [hdata]
      exact occ_renderToks m hm _ hG2
    have h2 : occursStr (String.mk ('<' :: (m ++ ['>']))) text ↔ Tok.ph m ∈ T := by
      show occurs ('<' :: (m ++ ['>'])) text.data ↔ _
      rw [hT]
      exact occ_renderToks m hm T hG
    rw [h1, h2]
    constructor
    · intro h
      exact (ph_mem_substToks params T m h).1
    · intro h
      exact ph_survives_substToks params T m h hne

/-- C3 counterexample: against the row `a = x, b = <a>`, the step text `<b>`
resolves to `<a>`, so the known-column placeholder `<a>` does occur in the
resolved step text, contradicting the claimed full substitution. Both
column names are single letters and both values are free of `$`, so on this
input the literal-replacement model coincides with the program's
`replace(new RegExp(..., 'g'), value)` calls and the trace is the
program's. -/
theorem resolveStepText_known_placeholder_cex :
    resolveStepText [("a", "x"), ("b", "<a>")] "<b>" = "<a>" ∧
    occursStr "<a>" (resolveStepText [("a", "x"), ("b", "<a>")] "<b>") := by
  have hall : (resolveStepText [("a", "x"), ("b", "<a>")] "<b>").data = ['<', 'a', '>'] := by
    show substAll '<' ("b".data ++ ['>']) "<a>".data
        (substAll '<' ("a".data ++ ['>']) "x".data "<b>".data) = ['<', 'a', '>']
    have hA : substAll '<' ("a".data ++ ['>']) "x".data "<b>".data = ['<', 'b', '>'] :=
      substAll_render "a".data "x".data (by decide) [Tok.ph ['b']] (by decide)
    rw [hA]
    exact substAll_render "b".data "<a>".data (by decide) [Tok.ph ['b']] (by decide)
  refine ⟨?_, ?_⟩
  · have : resolveStepText [("a", "x"), ("b", "<a>")] "<b>"
        = String.mk (resolveStepText [("a", "x"), ("b", "<a>")] "<b>").data := rfl
    rw [this, hall]
  · show occurs "<a>".data (resolveStepText [("a", "x"), ("b", "<a>")] "<b>").data
    rw [hall]
    exact ⟨[], [], rfl⟩

/-- Witness for C3: substituting the single column `a = x` into `<a> <b>`
removes `<a>` and keeps the unknown placeholder `<b>` verbatim. -/
theorem resolveStepText_substitution_amended_witness :
    (¬ occursStr (String.mk ('<' :: (("a" : String).data ++ ['>'])))
        (resolveStepText [("a", "x")] "<a> <b>")) ∧
    occursStr (String.mk ('<' :: ((['b'] : List Char) ++ ['>'])))
        (resolveStepText [("a", "x")] "<a> <b>") := by
  have main := resolveStepText_substitution_amended [("a", "x")] "<a> <b>"
    [Tok.ph ['a'], Tok.lit [' '], Tok.ph ['b']]
    (by decide) (by decide) (by decide) (by decide)
  refine ⟨main.1 ("a", "x") (by simp), ?_⟩
  refine (main.2 ['b'] (by decide) (by decide)).mpr ?_
  show occurs ('<' :: (['b'] ++ ['>'])) "<a> <b>".data
  exact ⟨['<', 'a', '>', ' '], [], by decide⟩
